import Mathlib

/-!
Verification development for the `converter` repository.

Strings of the Python source are modelled as `List Char` (named `Str`);
`None`-able strings as `Option Str`; floats as `ℚ` (the code only divides
by 1000 and compares); UTC datetimes as `Int` (seconds); SHA-256 is an
abstract parameter `hash : Str → Str`; `uuid4` is a deterministic fresh
supply driven by a counter kept in the state.
-/

namespace Conv

abbrev Str := List Char

/-- ASCII whitespace, as stripped by Python `str.strip()` on the inputs the
pipeline handles. -/
def isPySpace (c : Char) : Bool :=
  c = ' ' || c = '\t' || c = '\n' || c = '\r' || c = '\x0b' || c = '\x0c'

/-- Python `str.strip()`. -/
def pyStrip (s : Str) : Str :=
  (((s.dropWhile isPySpace).reverse).dropWhile isPySpace).reverse

/-- Python `str.strip(chars)`: strip any of the given characters from both ends. -/
def pyStripChars (chars : List Char) (s : Str) : Str :=
  (((s.dropWhile (chars.contains ·)).reverse).dropWhile (chars.contains ·)).reverse

/-- Lower-casing for the alphabets the code handles: ASCII and Cyrillic
(`А..Я`, `Ё`), as `str.lower()` acts on them. -/
def ruLower (c : Char) : Char :=
  if 'A' ≤ c ∧ c ≤ 'Z' then Char.ofNat (c.toNat + 32)
  else if 'А' ≤ c ∧ c ≤ 'Я' then Char.ofNat (c.toNat + 32)
  else if c = 'Ё' then 'ё'
  else c

def lowerStr (s : Str) : Str := s.map ruLower

/-- `_safe_str` of `converter.adapters.catalog` (and `daemon._safe_str`) on a
`str | None` value: strip, turn the empty result into `None`. -/
def safeStr (v : Option Str) : Option Str :=
  v.bind fun s => let t := pyStrip s; if t = [] then none else some t

/-- `_is_missing` of `converter.adapters.catalog` on a `str | None` value. -/
def isMissingS (v : Option Str) : Bool :=
  match v with
  | none => true
  | some s => pyStrip s = []

/-! ## Job queue daemon (`converter/daemon.py`) -/

namespace Daemon

/-- `QueueJob` dataclass. -/
structure QueueJob where
  receiver_db : Str
  catalog_db : Str
  parser_name : Str := "fixprice".toList
  batch_size : Int := 250
  max_batches : Int := 0
  run_id : Option Str := none
  source : Str := "receiver".toList
deriving DecidableEq, Repr

abbrev DKey := Str × Str × Str

/-- `QueueJob.dedupe_key`: `(receiver_db.strip(), catalog_db.strip(),
parser_name.strip().lower() or "fixprice")`. -/
def dedupeKey (j : QueueJob) : DKey :=
  ( pyStrip j.receiver_db
  , pyStrip j.catalog_db
  , let t := lowerStr (pyStrip j.parser_name)
    if t = [] then "fixprice".toList else t )

/-- The daemon state guarded by `self._lock`, plus the bounded FIFO. -/
structure DaemonState where
  queue : List QueueJob
  maxSize : Nat
  pending : List DKey
  active : List DKey
  totalEnqueued : Nat
  totalDuplicates : Nat
  totalProcessed : Nat
  totalFailed : Nat
deriving Repr

def initialDaemon (maxQueueSize : Nat) : DaemonState :=
  ⟨[], max 1 maxQueueSize, [], [], 0, 0, 0, 0⟩

structure EnqueueResult where
  accepted : Bool
  duplicate : Bool
  reason : Str
  queue_size : Nat
  key : DKey
deriving DecidableEq, Repr

/-- `ConverterDaemon.enqueue`.  `put_nowait` on a `queue.Queue(maxsize=n)`
succeeds exactly when fewer than `n` items are queued. -/
def enqueue (st : DaemonState) (job : QueueJob) : DaemonState × EnqueueResult :=
  let key := dedupeKey job
  if key ∈ st.pending ∨ key ∈ st.active then
    ( { st with totalDuplicates := st.totalDuplicates + 1 }
    , ⟨false, true, "duplicate".toList, st.queue.length, key⟩ )
  else if st.queue.length < st.maxSize then
    ( { st with
          pending := key :: st.pending
          queue := st.queue ++ [job]
          totalEnqueued := st.totalEnqueued + 1 }
    , ⟨true, false, "accepted".toList, st.queue.length + 1, key⟩ )
  else
    ( st, ⟨false, false, "queue_full".toList, st.queue.length, key⟩ )

end Daemon

/-! ## Storage HTTP client (`converter/adapters/storage_http.py`)

URLs are modelled as byte lists (UTF-8): percent-decoding works on bytes,
and every character the name checks look for (`/`, `\`, `.`) is ASCII. -/

namespace Storage

abbrev Bytes := List Nat

/-- ASCII bytes of a literal. -/
def bstr (s : String) : Bytes := s.toList.map Char.toNat

def isSpaceB (b : Nat) : Bool :=
  b = 32 || b = 9 || b = 10 || b = 13 || b = 11 || b = 12

/-- `str.strip()` at byte level. -/
def stripB (s : Bytes) : Bytes :=
  (((s.dropWhile isSpaceB).reverse).dropWhile isSpaceB).reverse

def hexVal (b : Nat) : Option Nat :=
  if 48 ≤ b ∧ b ≤ 57 then some (b - 48)
  else if 97 ≤ b ∧ b ≤ 102 then some (b - 87)
  else if 65 ≤ b ∧ b ≤ 70 then some (b - 55)
  else none

/-- `urllib.parse.unquote`: decode `%xx` escapes; malformed escapes pass
through unchanged. -/
def unquoteB : Bytes → Bytes
  | [] => []
  | 37 :: h1 :: h2 :: rest =>
    match hexVal h1, hexVal h2 with
    | some v1, some v2 => (v1 * 16 + v2) :: unquoteB rest
    | _, _ => 37 :: unquoteB (h1 :: h2 :: rest)
  | b :: rest => b :: unquoteB rest

def isAlphaB (b : Nat) : Bool :=
  (65 ≤ b && b ≤ 90) || (97 ≤ b && b ≤ 122)

def isDigitB (b : Nat) : Bool := 48 ≤ b && b ≤ 57

def isSchemeB (b : Nat) : Bool :=
  isAlphaB b || isDigitB b || b = 43 || b = 45 || b = 46

def lowerB (b : Nat) : Nat := if 65 ≤ b ∧ b ≤ 90 then b + 32 else b

structure ParsedUrl where
  scheme : Bytes
  netloc : Bytes
  path : Bytes
deriving DecidableEq, Repr

/-- `urllib.parse.urlparse`, restricted to the fields the adapter reads:
a leading `<scheme>:` (first character alphabetic, the rest scheme
characters) is split off and lower-cased; `//<netloc>` runs to the first
`/`, `?` or `#`; the path stops at the first `?` or `#`. -/
def urlparseB (s : Bytes) : ParsedUrl :=
  let pre := s.takeWhile (· ≠ 58)
  let rest := s.drop pre.length
  let (scheme, rem) :=
    if rest ≠ [] ∧ pre ≠ [] ∧ isAlphaB (pre.headD 0) ∧ pre.all isSchemeB then
      (pre.map lowerB, rest.drop 1)
    else ([], s)
  if rem.take 2 = [47, 47] then
    let r2 := rem.drop 2
    let netloc := r2.takeWhile fun b => b ≠ 47 && b ≠ 63 && b ≠ 35
    let after := r2.drop netloc.length
    ⟨scheme, netloc, after.takeWhile fun b => b ≠ 63 && b ≠ 35⟩
  else
    ⟨scheme, [], rem.takeWhile fun b => b ≠ 63 && b ≠ 35⟩

/-- The `parsed.scheme and parsed.netloc` branch of `_image_name_from_url`:
for an absolute URL return its origin `scheme://netloc` and its path. -/
def absSplit (token : Bytes) : Option (Bytes × Bytes) :=
  let p := urlparseB token
  if p.scheme ≠ [] ∧ p.netloc ≠ [] then
    some (p.scheme ++ bstr "://" ++ p.netloc, p.path)
  else none

/-- The storage configuration the name derivation consults. -/
structure StorageCfg where
  origin : Bytes
deriving Repr

/-- Strip the accepted prefix from a cleaned path (`/api/images/`,
`/images/`, `images/`), or reject. -/
def stripImagePre (cp : Bytes) : Option Bytes :=
  if bstr "/api/images/" <+: cp then some (cp.drop 12)
  else if bstr "/images/" <+: cp then some (cp.drop 8)
  else if bstr "images/" <+: cp then some (cp.drop 7)
  else none

/-- The final checks of `_image_name_from_url` on the decoded, cleaned
name: reject empty names and path traversal. -/
def finishCheck (nm : Bytes) : Option Bytes :=
  if nm = [] then none
  else if nm.contains 47 then none
  else if nm.contains 92 then none
  else if bstr ".." <:+: nm then none
  else some nm

/-- The tail of `_image_name_from_url`: URL-decode, strip, drop leading
slashes, then run the final checks. -/
def finishName (nm0 : Bytes) : Option Bytes :=
  finishCheck ((stripB (unquoteB nm0)).dropWhile (· = 47))

/-- `StorageHTTPRepository._image_name_from_url`. -/
def imageNameFromUrl (cfg : StorageCfg) (url : Bytes) : Option Bytes :=
  if stripB url = [] then none
  else
    match absSplit (stripB url) with
    | some (origin, pth) =>
      if origin = cfg.origin then
        match stripImagePre (stripB pth) with
        | none => none
        | some nm0 => finishName nm0
      else none
    | none =>
      match stripImagePre (stripB (stripB url)) with
      | none => none
      | some nm0 => finishName nm0

/-- `_extract_unique_image_names`: first-seen order, duplicates dropped. -/
def extractUniqueAux (cfg : StorageCfg) : List Bytes → List Bytes → List Bytes
  | [], _ => []
  | u :: rest, seen =>
    match imageNameFromUrl cfg u with
    | none => extractUniqueAux cfg rest seen
    | some n =>
      if n ∈ seen then extractUniqueAux cfg rest seen
      else n :: extractUniqueAux cfg rest (n :: seen)

/-- `delete_images` issues exactly one DELETE per element of this list,
in order. -/
def deleteImages (cfg : StorageCfg) (urls : List Bytes) : List Bytes :=
  extractUniqueAux cfg urls []

/-- The URL has absolute form and its origin equals the configured one. -/
def originMatches (cfg : StorageCfg) (u : Bytes) : Prop :=
  ∃ pth, absSplit (stripB u) = some (cfg.origin, pth)

/-- The URL is a path-only form starting with an accepted image prefix. -/
def relAllowed (u : Bytes) : Prop :=
  absSplit (stripB u) = none ∧ (stripImagePre (stripB (stripB u))).isSome

theorem finishCheck_some {nm n : Bytes} (h : finishCheck nm = some n) :
    n ≠ [] ∧ n.contains 47 = false ∧ n.contains 92 = false ∧
      ¬ (bstr ".." <:+: n) := by
  unfold finishCheck at h
  split_ifs at h with h1 h2 h3 h4
  cases h
  refine ⟨h1, ?_, ?_, h4⟩
  · simpa using h2
  · simpa using h3

theorem finishName_some {nm0 n : Bytes} (h : finishName nm0 = some n) :
    n ≠ [] ∧ n.contains 47 = false ∧ n.contains 92 = false ∧
      ¬ (bstr ".." <:+: n) :=
  finishCheck_some h

theorem imageNameFromUrl_some {cfg : StorageCfg} {u n : Bytes}
    (h : imageNameFromUrl cfg u = some n) :
    (∃ nm0, finishName nm0 = some n) ∧ (originMatches cfg u ∨ relAllowed u) := by
  unfold imageNameFromUrl at h
  split_ifs at h with ht
  revert h
  cases habs : absSplit (stripB u) with
  | none =>
    cases hpre : stripImagePre (stripB (stripB u)) with
    | none => intro h; cases h
    | some nm0 =>
      intro h
      exact ⟨⟨nm0, h⟩, Or.inr ⟨habs, by rw [hpre]; exact rfl⟩⟩
  | some pr =>
    obtain ⟨origin, pth⟩ := pr
    by_cases horg : origin = cfg.origin
    · simp only [horg, if_true]
      cases hpre : stripImagePre (stripB pth) with
      | none => intro h; cases h
      | some nm0 =>
        intro h
        exact ⟨⟨nm0, h⟩, Or.inl ⟨pth, by rw [habs, horg]⟩⟩
    · simp only [horg, if_false]
      intro h; cases h

theorem extractUniqueAux_spec (cfg : StorageCfg) :
    ∀ (urls seen : List Bytes),
      (extractUniqueAux cfg urls seen).Nodup ∧
      ∀ n ∈ extractUniqueAux cfg urls seen,
        n ∉ seen ∧ ∃ u ∈ urls, imageNameFromUrl cfg u = some n := by
  intro urls
  induction urls with
  | nil => intro seen; simp [extractUniqueAux]
  | cons u rest ih =>
    intro seen
    unfold extractUniqueAux
    cases hname : imageNameFromUrl cfg u with
    | none =>
      refine ⟨(ih seen).1, ?_⟩
      intro n hn
      obtain ⟨hns, w, hw, hfw⟩ := (ih seen).2 n hn
      exact ⟨hns, w, List.mem_cons_of_mem _ hw, hfw⟩
    | some n0 =>
      by_cases hseen : n0 ∈ seen
      · simp only [hseen, if_true]
        refine ⟨(ih seen).1, ?_⟩
        intro n hn
        obtain ⟨hns, w, hw, hfw⟩ := (ih seen).2 n hn
        exact ⟨hns, w, List.mem_cons_of_mem _ hw, hfw⟩
      · simp only [hseen, if_false]
        have hrec := ih (n0 :: seen)
        constructor
        · refine List.nodup_cons.mpr ⟨?_, hrec.1⟩
          intro hmem
          exact (hrec.2 n0 hmem).1 (List.mem_cons_self _ _)
        · intro n hn
          rcases List.mem_cons.mp hn with hfst | hrest
          · subst hfst
            exact ⟨hseen, u, List.mem_cons_self _ _, hname⟩
          · obtain ⟨hns, w, hw, hfw⟩ := hrec.2 n hrest
            refine ⟨fun hc => hns (List.mem_cons_of_mem _ hc), w,
              List.mem_cons_of_mem _ hw, hfw⟩

end Storage

/-! ## FixPrice title parser (`converter/parsers/fixprice/title_parser.py`,
`patterns.py`)

The regular expressions are embedded as direct scanners over `List Char`.
`WVL_RE = (?P<q>\d+(?:[.,]\d+)?)\s*(?P<u>г|кг|мл|л|l)\b` is deterministic:
the unit alternatives start with pairwise distinct characters, letters never
match `\s*` and the fraction, once present, cannot be given back (the
character after the integer digits would then be `.`/`,`, on which no unit
alternative can start), so no backtracking case survives. -/

namespace Fixprice

/-- Word characters (`\b` context) for the alphabets the parser handles:
ASCII alphanumerics, underscore and Cyrillic letters. -/
def isWordChar (c : Char) : Bool :=
  c.isAlphanum || c = '_' || ('а' ≤ c && c ≤ 'я') || ('А' ≤ c && c ≤ 'Я') ||
    c = 'ё' || c = 'Ё'

/-- Trailing `\b` after a word character: end of input or a non-word char. -/
def boundaryAfter (s : Str) : Bool :=
  match s with
  | [] => true
  | c :: _ => ¬ isWordChar c

/-- Leading `\b` before a word character: start of input or a non-word char. -/
def boundaryBefore (prev : Option Char) : Bool :=
  match prev with
  | none => true
  | some c => ¬ isWordChar c

def natOfDigits (s : Str) : Nat :=
  s.foldl (fun a c => a * 10 + (c.toNat - 48)) 0

/-- One match of `WVL_RE`: integer digits, optional fraction digits and the
lower-cased unit token (`match.group("u").lower()`). -/
structure WvlMatch where
  intPart : Str
  fracPart : Str
  unit : Str
deriving DecidableEq, Repr

/-- The numeric value of `_to_float(match.group("q"))`. -/
def qOf (m : WvlMatch) : ℚ :=
  (natOfDigits m.intPart : ℚ) + (natOfDigits m.fracPart : ℚ) / 10 ^ m.fracPart.length

/-- Match one unit alternative (`г|кг|мл|л|l`, case-insensitive) plus the
trailing `\b`; returns the rest of the input. -/
def tryUnit (s : Str) : Option (Str × Str) :=
  let att (u : String) : Option (Str × Str) :=
    let w := u.toList
    if lowerStr (s.take w.length) = w ∧ boundaryAfter (s.drop w.length) then
      some (w, s.drop w.length)
    else none
  (att "г").orElse fun _ => (att "кг").orElse fun _ =>
    (att "мл").orElse fun _ => (att "л").orElse fun _ => att "l"

/-- Attempt `WVL_RE` anchored at the start of `s`; on success also return
the remaining input after the match. -/
def wvlTryAt (s : Str) : Option (WvlMatch × Str) :=
  let d1 := s.takeWhile Char.isDigit
  if d1 = [] then none
  else
    let r1 := s.drop d1.length
    let fr :=
      match r1 with
      | c :: rest1 =>
        if c = '.' ∨ c = ',' then
          let f := rest1.takeWhile Char.isDigit
          if f = [] then (([] : Str), r1) else (f, rest1.drop f.length)
        else ([], r1)
      | [] => ([], r1)
    let r3 := fr.2.dropWhile isPySpace
    match tryUnit r3 with
    | some (u, rest) => some (⟨d1, fr.1, u⟩, rest)
    | none => none

/-- `WVL_RE.search`: leftmost match. -/
def wvlSearch : Str → Option (WvlMatch × Str)
  | [] => none
  | c :: tail =>
    match wvlTryAt (c :: tail) with
    | some r => some r
    | none => wvlSearch tail

def wvlAllAux : Nat → Str → List WvlMatch
  | 0, _ => []
  | fuel + 1, s =>
    match wvlSearch s with
    | none => []
    | some (m, rest) => m :: wvlAllAux fuel rest

/-- `WVL_RE.finditer`: all (non-overlapping) matches, left to right. -/
def wvlAll (s : Str) : List WvlMatch := wvlAllAux (s.length + 1) s

/-- The unit conversion of `_extract_package`. -/
def convert (m : WvlMatch) : Option ℚ × Option Str :=
  if m.unit = "г".toList then (some (qOf m / 1000), some "KGM".toList)
  else if m.unit = "кг".toList then (some (qOf m), some "KGM".toList)
  else if m.unit = "мл".toList then (some (qOf m / 1000), some "LTR".toList)
  else if m.unit = "л".toList ∨ m.unit = "l".toList then
    (some (qOf m), some "LTR".toList)
  else (none, none)

/-- `_extract_package`: convert the `WVL_RE.search` match, if any. -/
def extractPackage (title : Str) : Option ℚ × Option Str :=
  match wvlSearch title with
  | none => (none, none)
  | some (m, _) => convert m

/-- Attempt `ASSORT_RE = \bв\s+ассортименте\b` anchored at the start
(the leading `\b` is checked by the caller); returns the rest. -/
def tryAssort (s : Str) : Option Str :=
  match s with
  | [] => none
  | c :: rest =>
    if ruLower c = 'в' then
      let sp := rest.takeWhile isPySpace
      if sp = [] then none
      else
        let r2 := rest.drop sp.length
        let w := "ассортименте".toList
        if lowerStr (r2.take w.length) = w ∧ boundaryAfter (r2.drop w.length) then
          some (r2.drop w.length)
        else none
    else none

def assortSubAux : Nat → Option Char → Str → Str
  | 0, _, s => s
  | _ + 1, _, [] => []
  | fuel + 1, prev, c :: tail =>
    if boundaryBefore prev then
      match tryAssort (c :: tail) with
      | some rest => assortSubAux fuel (some 'е') rest
      | none => c :: assortSubAux fuel (some c) tail
    else c :: assortSubAux fuel (some c) tail

/-- `ASSORT_RE.sub("", title)`. -/
def assortSub (s : Str) : Str := assortSubAux (s.length + 1) none s

/-- Match a fixed word, case-insensitively, at the start of `s`. -/
def matchWord (s : Str) (w : String) : Option Str :=
  if lowerStr (s.take w.toList.length) = w.toList then
    some (s.drop w.toList.length)
  else none

/-- `BY_WEIGHT_RE = \b(весов(?:ой|ая|ые)?|на\s+вес)\b` anchored at the
start (leading `\b` checked by the caller). -/
def tryByWeight (s : Str) : Bool :=
  (match matchWord s "весов" with
   | some r =>
     (match matchWord r "ой" with
      | some r2 => boundaryAfter r2
      | none => false) ||
     (match matchWord r "ая" with
      | some r2 => boundaryAfter r2
      | none => false) ||
     (match matchWord r "ые" with
      | some r2 => boundaryAfter r2
      | none => false) ||
     boundaryAfter r
   | none => false) ||
  (match matchWord s "на" with
   | some r =>
     let sp := r.takeWhile isPySpace
     if sp = [] then false
     else
       match matchWord (r.drop sp.length) "вес" with
       | some r2 => boundaryAfter r2
       | none => false
   | none => false)

/-- `BY_VOLUME_RE = \b(на\s+розлив|розлив|разлив)\b` anchored at the start. -/
def tryByVolume (s : Str) : Bool :=
  (match matchWord s "на" with
   | some r =>
     let sp := r.takeWhile isPySpace
     if sp = [] then false
     else
       match matchWord (r.drop sp.length) "розлив" with
       | some r2 => boundaryAfter r2
       | none => false
   | none => false) ||
  (match matchWord s "розлив" with
   | some r2 => boundaryAfter r2
   | none => false) ||
  (match matchWord s "разлив" with
   | some r2 => boundaryAfter r2
   | none => false)

/-- Does the pattern (anchored attempt `p` behind a leading `\b`) match
anywhere in the input? -/
def scanBoundary (p : Str → Bool) : Option Char → Str → Bool
  | _, [] => false
  | prev, c :: tail =>
    (boundaryBefore prev && p (c :: tail)) || scanBoundary p (some c) tail

/-- `BY_WEIGHT_RE.search(...) is not None`. -/
def byWeight (s : Str) : Bool := scanBoundary tryByWeight none s

/-- `BY_VOLUME_RE.search(...) is not None`. -/
def byVolume (s : Str) : Bool := scanBoundary tryByVolume none s

/-- `FixPriceTitleParser.parse`: `title_without_assort =
ASSORT_RE.sub("", title.strip()).strip(" ,")`. -/
def titleWithoutAssort (title : Str) : Str :=
  pyStripChars [' ', ','] (assortSub (pyStrip title))

/-- The `(package_quantity, package_unit)` pair produced by
`FixPriceTitleParser.parse` (cleared by the by-weight / by-volume idioms). -/
def fixpricePackage (title : Str) : Option ℚ × Option Str :=
  let twa := titleWithoutAssort title
  if byWeight twa then (none, none)
  else if byVolume twa then (none, none)
  else extractPackage twa

theorem wvlAll_headq (s : Str) :
    (wvlAll s).head? = (wvlSearch s).map fun r => r.1 := by
  unfold wvlAll wvlAllAux
  cases h : wvlSearch s with
  | none => rfl
  | some r => cases r; rfl

end Fixprice

/-! ## Catalog repository (`converter/adapters/catalog.py`)

The SQLAlchemy session is modelled as a single state holding every table
as a list of rows in insertion order; pending and committed rows are
looked up uniformly, as the code does for the tables the claims exercise.
`uuid4` is a deterministic fresh supply (`mintId` with a counter),
`sha256` an abstract `hash : Str → Str` argument, `_utc_now()` a single
per-call `now : Int`.  Payload values are modelled as strings (records
whose payloads carry no structured `receiver_categories` list; category
candidates then come from splitting `category_raw`, the code's other
branch). -/

namespace Catalog

/-- A backfillable column value: a nullable string or a nullable float. -/
inductive Val where
  | vs : Option Str → Val
  | vq : Option ℚ → Val
deriving DecidableEq, Repr

/-- `_is_missing` on a backfillable value: `None`, or a blank string. -/
def isMissingV : Val → Bool
  | .vs v => isMissingS v
  | .vq v => v.isNone

/-- The fields of `NormalizedProductRecord` that `catalog.py` reads. -/
structure RecordM where
  parser_name : Str
  source_id : Option Str
  plu : Option Str
  sku : Option Str
  canonical_product_id : Option Str
  raw_title : Str
  title_original : Str
  title_normalized : Str
  title_original_no_stopwords : Str
  title_normalized_no_stopwords : Str
  brand : Option Str
  unit : Str
  available_count : Option ℚ
  package_quantity : Option ℚ
  package_unit : Option Str
  category_raw : Option Str
  category_normalized : Option Str
  geo_raw : Option Str
  geo_normalized : Option Str
  composition_raw : Option Str
  composition_normalized : Option Str
  image_urls : List Str
  duplicate_image_urls : List Str
  image_fingerprints : List Str
  observed_at : Int
  raw_payload : List (Str × Str)
deriving DecidableEq, Repr

/-- `catalog_identity_map` row. -/
structure IdRow where
  parser_name : Str
  identity_type : Str
  identity_value : Str
  canonical_product_id : Str
  updated_at : Int
deriving DecidableEq, Repr

/-- `catalog_image_fingerprints` row. -/
structure FpRow where
  fingerprint : Str
  canonical_url : Str
  created_at : Int
  updated_at : Int
deriving DecidableEq, Repr

/-- `catalog_product_snapshots` row. -/
structure SnapRow where
  id : Nat
  canonical_product_id : Str
  parser_name : Str
  source_id : Str
  source_run_id : Option Str
  receiver_product_id : Option Int
  receiver_artifact_id : Option Int
  receiver_sort_order : Option Int
  raw_title : Str
  title_original : Str
  title_normalized : Str
  title_original_no_stopwords : Str
  title_normalized_no_stopwords : Str
  brand : Option Str
  unit : Str
  available_count : Option ℚ
  package_quantity : Option ℚ
  package_unit : Option Str
  category_raw : Option Str
  category_normalized : Option Str
  geo_raw : Option Str
  geo_normalized : Option Str
  composition_raw : Option Str
  composition_normalized : Option Str
  settlement_id : Option Nat
  image_urls : List Str
  duplicate_image_urls : List Str
  image_fingerprints : List Str
  observed_at : Int
  raw_payload : List (Str × Str)
  created_at : Int
deriving DecidableEq, Repr

/-- `catalog_product_sources` row. -/
structure SourceRow where
  parser_name : Str
  source_id : Str
  canonical_product_id : Str
  latest_snapshot_id : Option Nat
  first_seen_at : Int
  last_seen_at : Int
  updated_at : Int
deriving DecidableEq, Repr

/-- `catalog_products` row (current projection). -/
structure ProdRow where
  canonical_product_id : Str
  parser_name : Str
  source_id : Str
  plu : Option Str
  sku : Option Str
  raw_title : Str
  title_original : Str
  title_normalized : Str
  title_original_no_stopwords : Str
  title_normalized_no_stopwords : Str
  brand : Option Str
  unit : Str
  available_count : Option ℚ
  package_quantity : Option ℚ
  package_unit : Option Str
  primary_category_id : Option Nat
  settlement_id : Option Nat
  composition_raw : Option Str
  composition_normalized : Option Str
  image_urls : List Str
  duplicate_image_urls : List Str
  image_fingerprints : List Str
  observed_at : Int
  raw_payload : List (Str × Str)
  created_at : Int
  updated_at : Int
deriving DecidableEq, Repr

/-- `catalog_settlements` row. -/
structure SettleRow where
  id : Nat
  geo_key : Str
  country_raw : Option Str
  country_normalized : Option Str
  region_raw : Option Str
  region_normalized : Option Str
  name_raw : Option Str
  name_normalized : Option Str
  settlement_type : Option Str
  aliasTok : Option Str
  latitude : Option ℚ
  longitude : Option ℚ
  first_seen_at : Int
  last_seen_at : Int
  updated_at : Int
deriving DecidableEq, Repr

/-- `catalog_categories` row. -/
structure CatRow where
  id : Nat
  category_key : Str
  parser_name : Str
  source_uid : Option Str
  parent_source_uid : Option Str
  title_raw : Option Str
  title_normalized : Option Str
  aliasTok : Option Str
  depth : Option Int
  sort_order : Option Int
  first_seen_at : Int
  last_seen_at : Int
  updated_at : Int
deriving DecidableEq, Repr

/-- The JSON payload `set_receiver_cursor` writes into
`converter_sync_state`. -/
structure CursorPayload where
  ingested_at : Str
  product_id : Int
deriving DecidableEq, Repr

/-- The whole catalog database plus the deterministic id supplies. -/
structure CatalogState where
  identity_map : List IdRow
  fingerprints : List FpRow
  snapshots : List SnapRow
  sources : List SourceRow
  products : List ProdRow
  settlements : List SettleRow
  categories : List CatRow
  sync_state : List (Str × CursorPayload)
  mint : Nat
  next_snapshot_id : Nat
  next_settlement_id : Nat
  next_category_id : Nat
deriving DecidableEq, Repr

def emptyCatalog : CatalogState := ⟨[], [], [], [], [], [], [], [], 0, 0, 0, 0⟩

/-- The deterministic stand-in for `str(uuid4())`: never blank. -/
def mintId (n : Nat) : Str := 'u' :: Nat.toDigits 10 n

def intToStr (n : Int) : Str :=
  if n < 0 then '-' :: Nat.toDigits 10 n.natAbs else Nat.toDigits 10 n.natAbs

/-- Python truthiness of a `str | None`. -/
def pyTruthyS (v : Option Str) : Bool :=
  match v with
  | none => false
  | some s => s ≠ []

/-- `a or b` for `str | None` values. -/
def pyOrS (a : Option Str) (b : Str) : Str :=
  match a with
  | some s => if s = [] then b else s
  | none => b

def assocLookup (l : List (Str × Str)) (k : Str) : Option Str :=
  (l.find? fun kv => decide (kv.1 = k)).map (·.2)

/-- `int(token)` on a stripped string token: optional sign, digits. -/
def parseIntStr (s : Str) : Option Int :=
  match s with
  | '-' :: rest =>
    if rest ≠ [] ∧ rest.all Char.isDigit then some (-(Fixprice.natOfDigits rest : Int)) else none
  | '+' :: rest =>
    if rest ≠ [] ∧ rest.all Char.isDigit then some (Fixprice.natOfDigits rest : Int) else none
  | _ =>
    if s ≠ [] ∧ s.all Char.isDigit then some (Fixprice.natOfDigits s : Int) else none

/-- `_to_int` on a `str | None` payload value. -/
def pyInt (v : Option Str) : Option Int := (safeStr v).bind parseIntStr

/-- `float(token)` on a stripped decimal token (decimal literals; the
payloads the pipeline carries use plain decimals). -/
def parseDec (s : Str) : Option ℚ :=
  let core (t : Str) : Option ℚ :=
    let ip := t.takeWhile Char.isDigit
    let rest := t.drop ip.length
    match rest with
    | [] => if ip = [] then none else some (Fixprice.natOfDigits ip : ℚ)
    | '.' :: fr =>
      if fr.all Char.isDigit ∧ (ip ≠ [] ∨ fr ≠ []) then
        some ((Fixprice.natOfDigits ip : ℚ) +
          (Fixprice.natOfDigits fr : ℚ) / 10 ^ fr.length)
      else none
    | _ => none
  match s with
  | '-' :: rest => (core rest).map Neg.neg
  | '+' :: rest => core rest
  | _ => core s

/-- `_as_float` on a `str | None` payload value: strip, `,` → `.`, parse. -/
def pyFloat (v : Option Str) : Option ℚ :=
  (safeStr v).bind fun t => parseDec (t.map fun c => if c = ',' then '.' else c)

/-- `NormalizedProductRecord.identity_candidates`. -/
def identityCandidates (r : RecordM) : List (Str × Str) :=
  let pick (n : String) (v : Option Str) : List (Str × Str) :=
    match safeStr v with
    | some t => [(n.toList, t)]
    | none => []
  pick "plu" r.plu ++ pick "sku" r.sku ++ pick "source_id" r.source_id

/-- `_fallback_identity_value`. -/
def fallbackIdentityValue (r : RecordM) : Option Str :=
  match safeStr (some r.title_normalized_no_stopwords) with
  | some t => some t
  | none => safeStr (some r.title_normalized)

/-- `_get_identity_map_row` (pending and committed rows alike). -/
def idLookup (m : List IdRow) (p t v : Str) : Option IdRow :=
  m.find? fun row =>
    decide (row.parser_name = p ∧ row.identity_type = t ∧ row.identity_value = v)

/-- Write-or-refresh one identity-map binding to `chosen`. -/
def idWrite (m : List IdRow) (p t v chosen : Str) (now : Int) : List IdRow :=
  if (idLookup m p t v).isSome then
    m.map fun row =>
      if decide (row.parser_name = p ∧ row.identity_type = t ∧ row.identity_value = v) then
        { row with canonical_product_id := chosen, updated_at := now }
      else row
  else m ++ [⟨p, t, v, chosen, now⟩]

/-- `dict.fromkeys`: deduplicate keeping first occurrences. -/
def dedupFirstAux {α : Type} [DecidableEq α] (seen : List α) : List α → List α
  | [] => []
  | a :: l =>
    if a ∈ seen then dedupFirstAux seen l
    else a :: dedupFirstAux (a :: seen) l

def dedupFirst {α : Type} [DecidableEq α] (l : List α) : List α := dedupFirstAux [] l

/-- Probe one identity-map key; a hit counts only if the stored canonical
id is non-blank. -/
def probeId (m : List IdRow) (p : Str) (tv : Str × Str) : Option Str :=
  (idLookup m p tv.1 tv.2).bind fun row =>
    if (safeStr (some row.canonical_product_id)).isSome then
      some row.canonical_product_id
    else none

/-- `_resolve_canonical_product_id`: returns the chosen canonical id and
the state with every candidate binding written/refreshed to it. -/
def resolveCanonical (st : CatalogState) (r : RecordM) (now : Int) :
    Str × CatalogState :=
  let p := lowerStr (pyStrip r.parser_name)
  let keys := identityCandidates r
  let chosen0 := keys.findSome? (probeId st.identity_map p)
  let fallback := fallbackIdentityValue r
  let chosen1 :=
    match chosen0 with
    | some c => some c
    | none => fallback.bind fun fv => probeId st.identity_map p ("normalized_name".toList, fv)
  let chosenMint : Str × Nat :=
    match chosen1 with
    | some c => (c, st.mint)
    | none => (mintId st.mint, st.mint + 1)
  let idvals := dedupFirst (keys ++
    (match fallback with
     | some fv => [("normalized_name".toList, fv)]
     | none => []))
  let m2 := idvals.foldl (fun m tv => idWrite m p tv.1 tv.2 chosenMint.1 now) st.identity_map
  (chosenMint.1, { st with identity_map := m2, mint := chosenMint.2 })

def fpLookup (fps : List FpRow) (fp : Str) : Option FpRow :=
  fps.find? fun row => decide (row.fingerprint = fp)

def fpBump (fps : List FpRow) (fp : Str) (now : Int) : List FpRow :=
  fps.map fun row =>
    if decide (row.fingerprint = fp) then { row with updated_at := now } else row

/-- The running accumulator of `_apply_persistent_image_dedup`. -/
structure DedupAcc where
  fps : List FpRow
  uniq : List Str
  dups : List Str
  fprints : List Str
  seen : List Str
deriving DecidableEq, Repr

/-- The `seen_in_record` check shared by both lookup branches. -/
def dedupFinish (acc : DedupAcc) (fp canonical url : Str) : DedupAcc :=
  if fp ∈ acc.seen then { acc with dups := acc.dups ++ [url] }
  else
    { acc with
        seen := fp :: acc.seen
        uniq := acc.uniq ++ [canonical]
        fprints := acc.fprints ++ [fp] }

/-- One loop iteration of `_apply_persistent_image_dedup`. -/
def dedupStep (hash : Str → Str) (now : Int) (acc : DedupAcc) (raw : Str) : DedupAcc :=
  let url := pyStrip raw
  if url = [] then acc
  else
    let fp := hash url
    match fpLookup acc.fps fp with
    | none =>
      dedupFinish { acc with fps := acc.fps ++ [⟨fp, url, now, now⟩] } fp url url
    | some row =>
      dedupFinish
        { acc with
            fps := fpBump acc.fps fp now
            dups := if row.canonical_url ≠ url then acc.dups ++ [url] else acc.dups }
        fp row.canonical_url url

/-- `_apply_persistent_image_dedup`. -/
def applyImageDedup (hash : Str → Str) (now : Int) (st : CatalogState) (r : RecordM) :
    CatalogState × RecordM :=
  let acc := r.image_urls.foldl (dedupStep hash now) ⟨st.fingerprints, [], [], [], []⟩
  ( { st with fingerprints := acc.fps }
  , { r with
        image_urls := acc.uniq
        duplicate_image_urls := acc.dups
        image_fingerprints := acc.fprints } )

/-- A history item as `_closest_non_missing` reads it via `getattr`;
built from a snapshot row or (with `None` defaults for the columns
`catalog_products` lacks) from a projection row. -/
structure HistItem where
  brand : Option Str
  category_normalized : Option Str
  geo_normalized : Option Str
  composition_normalized : Option Str
  package_quantity : Option ℚ
  package_unit : Option Str
  observed_at : Int
deriving DecidableEq, Repr

def snapHist (s : SnapRow) : HistItem :=
  ⟨s.brand, s.category_normalized, s.geo_normalized, s.composition_normalized,
    s.package_quantity, s.package_unit, s.observed_at⟩

/-- `catalog_products` has no `category_normalized` / `geo_normalized`
columns; `getattr(item, field, None)` yields `None` for them. -/
def prodHist (p : ProdRow) : HistItem :=
  ⟨p.brand, none, none, p.composition_normalized,
    p.package_quantity, p.package_unit, p.observed_at⟩

/-- `BACKFILL_FIELDS`, in declaration order. -/
inductive BackField where
  | brand | categoryNormalized | geoNormalized | compositionNormalized
  | packageQuantity | packageUnit
deriving DecidableEq, Repr

def backFields : List BackField :=
  [.brand, .categoryNormalized, .geoNormalized, .compositionNormalized,
   .packageQuantity, .packageUnit]

def getH (h : HistItem) : BackField → Val
  | .brand => .vs h.brand
  | .categoryNormalized => .vs h.category_normalized
  | .geoNormalized => .vs h.geo_normalized
  | .compositionNormalized => .vs h.composition_normalized
  | .packageQuantity => .vq h.package_quantity
  | .packageUnit => .vs h.package_unit

def getR (r : RecordM) : BackField → Val
  | .brand => .vs r.brand
  | .categoryNormalized => .vs r.category_normalized
  | .geoNormalized => .vs r.geo_normalized
  | .compositionNormalized => .vs r.composition_normalized
  | .packageQuantity => .vq r.package_quantity
  | .packageUnit => .vs r.package_unit

def setR (r : RecordM) : BackField → Val → RecordM
  | .brand, .vs v => { r with brand := v }
  | .categoryNormalized, .vs v => { r with category_normalized := v }
  | .geoNormalized, .vs v => { r with geo_normalized := v }
  | .compositionNormalized, .vs v => { r with composition_normalized := v }
  | .packageQuantity, .vq v => { r with package_quantity := v }
  | .packageUnit, .vs v => { r with package_unit := v }
  | _, _ => r

/-- The fold inside `_closest_non_missing`: keep the first value whose
`|observed_at − target|` is strictly smaller than everything before it. -/
def closestGo (f : BackField) (target : Int) :
    List HistItem → Option (Val × Nat) → Option (Val × Nat)
  | [], best => best
  | item :: rest, best =>
    if isMissingV (getH item f) then closestGo f target rest best
    else
      let delta := (item.observed_at - target).natAbs
      match best with
      | none => closestGo f target rest (some (getH item f, delta))
      | some b =>
        if delta < b.2 then closestGo f target rest (some (getH item f, delta))
        else closestGo f target rest best

/-- `_closest_non_missing`. -/
def closestNonMissing (hist : List HistItem) (f : BackField) (target : Int) :
    Option Val :=
  (closestGo f target hist none).map (·.1)

/-- The history list `_apply_backfill` reads: snapshots of the canonical
id, else projection rows of the canonical id. -/
def backfillHistory (st : CatalogState) (cid : Str) : List HistItem :=
  let snaps := (st.snapshots.filter fun s => decide (s.canonical_product_id = cid)).map snapHist
  if snaps ≠ [] then snaps
  else (st.products.filter fun p => decide (p.canonical_product_id = cid)).map prodHist

/-- One field of the `_apply_backfill` loop. -/
def backfillStep (hist : List HistItem) (target : Int) (rec : RecordM)
    (f : BackField) : RecordM :=
  if isMissingV (getR rec f) then
    match closestNonMissing hist f target with
    | some v => setR rec f v
    | none => rec
  else rec

/-- `_apply_backfill`: fill each missing back-fill field of the record
from the temporally closest non-missing history value. -/
def applyBackfill (st : CatalogState) (r : RecordM) : RecordM :=
  match safeStr r.canonical_product_id with
  | none => r
  | some cid =>
    let hist := backfillHistory st cid
    if hist = [] then r
    else backFields.foldl (backfillStep hist r.observed_at) r

/-- `_normalize_text`.  The source's `replace` call carries a mojibake
two-character pattern (a known corruption of `ё → е`); over the record
strings it is the identity, so the model keeps lower-casing and
whitespace collapse. -/
def normalizeText (v : Option Str) : Option Str :=
  (safeStr v).map fun t =>
    List.intercalate [' '] (((lowerStr t).splitOnP isPySpace).filter (· ≠ []))

/-- `str(geo_raw).split(",")` with per-segment strip and empty drop. -/
def splitCommaStrip (s : Str) : List Str :=
  ((s.splitOnP (· = ',')).map pyStrip).filter (· ≠ [])

/-- `category_raw.split("/")` with per-segment strip and empty drop. -/
def splitSlashStrip (s : Str) : List Str :=
  ((s.splitOnP (· = '/')).map pyStrip).filter (· ≠ [])

/-- The geo components of `_extract_geo_components`. -/
structure Geo where
  country_raw : Option Str
  country_normalized : Option Str
  region_raw : Option Str
  region_normalized : Option Str
  name_raw : Option Str
  name_normalized : Option Str
  settlement_type : Option Str
  aliasTok : Option Str
  latitude : Option ℚ
  longitude : Option ℚ
deriving DecidableEq, Repr

/-- `_extract_geo_components`. -/
def extractGeoComponents (r : RecordM) : Option Geo :=
  let pget := assocLookup r.raw_payload
  let country0 := safeStr (pget "receiver_geo_country".toList)
  let region0 := safeStr (pget "receiver_geo_region".toList)
  let name0 := safeStr (pget "receiver_geo_name".toList)
  let settlement_type := safeStr (pget "receiver_geo_settlement_type".toList)
  let aliasTok := safeStr (pget "receiver_geo_alias".toList)
  let latitude := pyFloat (pget "receiver_geo_latitude".toList)
  let longitude := pyFloat (pget "receiver_geo_longitude".toList)
  let parts :=
    if name0 = none ∧ pyTruthyS r.geo_raw then splitCommaStrip (r.geo_raw.getD [])
    else []
  let country_raw := if country0 = none then parts.get? 0 else country0
  let region_raw := if region0 = none then parts.get? 1 else region0
  let name_raw := if name0 = none then parts.get? 2 else name0
  let cn := normalizeText country_raw
  let rn := normalizeText region_raw
  let nn := normalizeText name_raw
  if cn = none ∧ rn = none ∧ nn = none then none
  else some ⟨country_raw, cn, region_raw, rn, name_raw, nn,
    settlement_type, aliasTok, latitude, longitude⟩

/-- `_geo_key`. -/
def geoKey (g : Geo) : Option Str :=
  let c := (safeStr g.country_normalized).getD []
  let r := (safeStr g.region_normalized).getD []
  let n := (safeStr g.name_normalized).getD []
  let combined := pyStripChars ['|'] (c ++ ['|'] ++ r ++ ['|'] ++ n)
  if combined = [] then none else some combined

def fillS (cur incoming : Option Str) : Option Str :=
  if isMissingS incoming then cur
  else if isMissingS cur then incoming
  else cur

def fillQ (cur incoming : Option ℚ) : Option ℚ :=
  if incoming.isNone then cur
  else if cur.isNone then incoming
  else cur

def fillI (cur incoming : Option Int) : Option Int :=
  if incoming.isNone then cur
  else if cur.isNone then incoming
  else cur

def settleLookup (rows : List SettleRow) (key : Str) : Option SettleRow :=
  rows.find? fun row => decide (row.geo_key = key)

/-- `_upsert_settlement`: create the settlement row or additively fill it;
returns the settlement id the product row will reference. -/
def upsertSettlement (st : CatalogState) (r : RecordM) (now : Int) :
    Option Nat × CatalogState :=
  match extractGeoComponents r with
  | none => (none, st)
  | some g =>
    match geoKey g with
    | none => (none, st)
    | some key =>
      let obs := r.observed_at
      match settleLookup st.settlements key with
      | none =>
        let row : SettleRow :=
          ⟨st.next_settlement_id, key, g.country_raw, g.country_normalized,
            g.region_raw, g.region_normalized, g.name_raw, g.name_normalized,
            g.settlement_type, g.aliasTok, g.latitude, g.longitude, obs, obs, now⟩
        ( some st.next_settlement_id
        , { st with
              settlements := st.settlements ++ [row]
              next_settlement_id := st.next_settlement_id + 1 } )
      | some row =>
        let row2 : SettleRow :=
          { row with
              last_seen_at := max row.last_seen_at obs
              updated_at := now
              country_raw := fillS row.country_raw g.country_raw
              country_normalized := fillS row.country_normalized g.country_normalized
              region_raw := fillS row.region_raw g.region_raw
              region_normalized := fillS row.region_normalized g.region_normalized
              name_raw := fillS row.name_raw g.name_raw
              name_normalized := fillS row.name_normalized g.name_normalized
              settlement_type := fillS row.settlement_type g.settlement_type
              aliasTok := fillS row.aliasTok g.aliasTok
              latitude := fillQ row.latitude g.latitude
              longitude := fillQ row.longitude g.longitude }
        ( some row.id
        , { st with
              settlements := st.settlements.map fun q =>
                if decide (q.geo_key = key) then row2 else q } )

def catLookup (rows : List CatRow) (key : Str) : Option CatRow :=
  rows.find? fun row => decide (row.category_key = key)

/-- `_category_key` for a candidate without a source uid. -/
def categoryKeyTitle (hash : Str → Str) (parser : Str) (tn : Option Str) : Option Str :=
  match tn with
  | some t => if t = [] then none else some (parser ++ ":title:".toList ++ (hash t).take 40)
  | none => none

/-- `_extract_category_candidates` for string-valued payloads: split
`category_raw` on `/`; `sort_order` falls back to the list index. -/
def categoryCandidates (r : RecordM) : List (Nat × Str) :=
  match safeStr r.category_raw with
  | none => []
  | some raw => (splitSlashStrip raw).enum

/-- One candidate step of `_upsert_categories`. -/
def upsertCategoryStep (hash : Str → Str) (parser : Str) (obs now : Int)
    (acc : List (Nat × Nat) × CatalogState) (cand : Nat × Str) :
    List (Nat × Nat) × CatalogState :=
  let (idx, title) := cand
  let title_raw := safeStr (some title)
  let tn := normalizeText title_raw
  match categoryKeyTitle hash parser tn with
  | none => acc
  | some key =>
    match catLookup acc.2.categories key with
    | none =>
      let row : CatRow :=
        ⟨acc.2.next_category_id, key, parser, none, none, title_raw, tn,
          none, none, some (idx : Int), obs, obs, now⟩
      ( acc.1 ++ [(acc.2.next_category_id, idx)]
      , { acc.2 with
            categories := acc.2.categories ++ [row]
            next_category_id := acc.2.next_category_id + 1 } )
    | some row =>
      let row2 : CatRow :=
        { row with
            last_seen_at := max row.last_seen_at obs
            updated_at := now
            title_raw := fillS row.title_raw title_raw
            title_normalized := fillS row.title_normalized tn
            sort_order := fillI row.sort_order (some (idx : Int)) }
      ( acc.1 ++ [(row.id, idx)]
      , { acc.2 with
            categories := acc.2.categories.map fun q =>
              if decide (q.category_key = key) then row2 else q } )

def upsertCategoriesAux (hash : Str → Str) (parser : Str) (obs now : Int) :
    List (Nat × Str) → (List (Nat × Nat) × CatalogState) →
      List (Nat × Nat) × CatalogState
  | [], acc => acc
  | cand :: rest, acc =>
    upsertCategoriesAux hash parser obs now rest
      (upsertCategoryStep hash parser obs now acc cand)

/-- `_upsert_categories`: create or additively fill one row per candidate;
returns `(category id, sort_order)` pairs in candidate order. -/
def upsertCategories (hash : Str → Str) (st : CatalogState) (r : RecordM) (now : Int) :
    List (Nat × Nat) × CatalogState :=
  upsertCategoriesAux hash (lowerStr (pyStrip r.parser_name)) r.observed_at now
    (categoryCandidates r) ([], st)

/-- `_primary_category_id`: the first linked category id. -/
def primaryCategoryId (cats : List (Nat × Nat)) : Option Nat :=
  (cats.head?).map (·.1)

/-- `_source_id`. -/
def sourceIdOf (r : RecordM) : Str :=
  match safeStr r.source_id with
  | some t => t
  | none =>
    match safeStr r.sku with
    | some t => "sku:".toList ++ t
    | none =>
      match safeStr r.plu with
      | some t => "plu:".toList ++ t
      | none =>
        "generated:".toList ++
          (match safeStr r.canonical_product_id with
           | some c => c
           | none => "unknown".toList) ++
          [':'] ++ intToStr r.observed_at

/-- `record.canonical_product_id or str(uuid4())` plus the mint counter. -/
def canonicalOrMint (mint : Nat) (v : Option Str) : Str × Nat :=
  match v with
  | some c => if c = [] then (mintId mint, mint + 1) else (c, mint)
  | none => (mintId mint, mint + 1)

/-- The snapshot row `_insert_product_snapshot` builds. -/
def mkSnap (st : CatalogState) (r : RecordM) (settlement : Option Nat)
    (now : Int) : SnapRow :=
  let pget := assocLookup r.raw_payload
  ⟨st.next_snapshot_id, (canonicalOrMint st.mint r.canonical_product_id).1,
    r.parser_name, sourceIdOf r,
    safeStr (pget "receiver_run_id".toList),
    pyInt (pget "receiver_product_id".toList),
    pyInt (pget "receiver_artifact_id".toList),
    pyInt (pget "receiver_sort_order".toList),
    r.raw_title, r.title_original, r.title_normalized,
    r.title_original_no_stopwords, r.title_normalized_no_stopwords,
    r.brand, r.unit, r.available_count, r.package_quantity, r.package_unit,
    r.category_raw, r.category_normalized, r.geo_raw, r.geo_normalized,
    r.composition_raw, r.composition_normalized, settlement,
    r.image_urls, r.duplicate_image_urls, r.image_fingerprints,
    r.observed_at, r.raw_payload, now⟩

/-- `_insert_product_snapshot` (always appends; returns the new id). -/
def insertSnapshot (st : CatalogState) (r : RecordM) (settlement : Option Nat)
    (now : Int) : Nat × CatalogState :=
  ( st.next_snapshot_id
  , { st with
        snapshots := st.snapshots ++ [mkSnap st r settlement now]
        next_snapshot_id := st.next_snapshot_id + 1
        mint := (canonicalOrMint st.mint r.canonical_product_id).2 } )

def srcLookup (rows : List SourceRow) (p sid : Str) : Option SourceRow :=
  rows.find? fun row => decide (row.parser_name = p ∧ row.source_id = sid)

/-- `_upsert_product_source`; may adopt the existing row's canonical id
back into the record. -/
def upsertProductSource (st : CatalogState) (r : RecordM) (snapId : Nat)
    (now : Int) : CatalogState × RecordM :=
  let p := lowerStr (pyStrip r.parser_name)
  let sid := sourceIdOf r
  let obs := r.observed_at
  match srcLookup st.sources p sid with
  | none =>
    let cidMint := canonicalOrMint st.mint r.canonical_product_id
    ( { st with
          sources := st.sources ++ [⟨p, sid, cidMint.1, some snapId, obs, obs, now⟩]
          mint := cidMint.2 }
    , r )
  | some row =>
    let adopt := (safeStr (some row.canonical_product_id)).isSome
    let r2 := if adopt then { r with canonical_product_id := some row.canonical_product_id } else r
    let newCanonical :=
      if adopt then row.canonical_product_id
      else pyOrS r.canonical_product_id row.canonical_product_id
    let row2 : SourceRow :=
      { row with
          canonical_product_id := newCanonical
          latest_snapshot_id := some snapId
          last_seen_at := max row.last_seen_at obs
          updated_at := now }
    ( { st with
          sources := st.sources.map fun q =>
            if decide (q.parser_name = p ∧ q.source_id = sid) then row2 else q }
    , r2 )

def prodLookup (rows : List ProdRow) (p sid : Str) : Option ProdRow :=
  rows.find? fun row => decide (row.parser_name = p ∧ row.source_id = sid)

/-- `dict(existing)` overlaid with `incoming` (incoming keys win). -/
def mergePayload (existing incoming : List (Str × Str)) : List (Str × Str) :=
  (existing.filter fun kv => ¬ incoming.any fun kv2 => kv2.1 = kv.1) ++ incoming

/-- The non-destructive merge of `_upsert_product_row` on an existing row. -/
def mergeProdRow (row : ProdRow) (r : RecordM) (primary settlement : Option Nat)
    (now : Int) : ProdRow :=
  { row with
      updated_at := now
      canonical_product_id :=
        if ¬ isMissingS r.canonical_product_id ∧ isMissingS (some row.canonical_product_id) then
          r.canonical_product_id.getD []
        else row.canonical_product_id
      plu := if ¬ isMissingS r.plu then r.plu else row.plu
      sku := if ¬ isMissingS r.sku then r.sku else row.sku
      raw_title := r.raw_title
      title_original := r.title_original
      title_normalized := r.title_normalized
      title_original_no_stopwords := r.title_original_no_stopwords
      title_normalized_no_stopwords := r.title_normalized_no_stopwords
      brand := if ¬ isMissingS r.brand then r.brand else row.brand
      unit := r.unit
      available_count :=
        if r.available_count.isSome then r.available_count else row.available_count
      package_quantity :=
        if r.package_quantity.isSome then r.package_quantity else row.package_quantity
      package_unit := if ¬ isMissingS r.package_unit then r.package_unit else row.package_unit
      primary_category_id := if primary.isSome then primary else row.primary_category_id
      settlement_id := if settlement.isSome then settlement else row.settlement_id
      composition_raw :=
        if ¬ isMissingS r.composition_raw then r.composition_raw else row.composition_raw
      composition_normalized :=
        if ¬ isMissingS r.composition_normalized then r.composition_normalized
        else row.composition_normalized
      image_urls := if r.image_urls ≠ [] then r.image_urls else row.image_urls
      duplicate_image_urls :=
        if r.image_urls ≠ [] then r.duplicate_image_urls else row.duplicate_image_urls
      image_fingerprints :=
        if r.image_urls ≠ [] then r.image_fingerprints else row.image_fingerprints
      observed_at := max row.observed_at r.observed_at
      raw_payload := mergePayload row.raw_payload r.raw_payload }

/-- `_upsert_product_row`. -/
def upsertProductRow (st : CatalogState) (r : RecordM) (settlement : Option Nat)
    (cats : List (Nat × Nat)) (now : Int) : CatalogState :=
  let sid := sourceIdOf r
  let primary := primaryCategoryId cats
  match prodLookup st.products r.parser_name sid with
  | none =>
    let cidMint := canonicalOrMint st.mint r.canonical_product_id
    let row : ProdRow :=
      ⟨cidMint.1, r.parser_name, sid, r.plu, r.sku,
        r.raw_title, r.title_original, r.title_normalized,
        r.title_original_no_stopwords, r.title_normalized_no_stopwords,
        r.brand, r.unit, r.available_count, r.package_quantity, r.package_unit,
        primary, settlement, r.composition_raw, r.composition_normalized,
        r.image_urls, r.duplicate_image_urls, r.image_fingerprints,
        r.observed_at, r.raw_payload, now, now⟩
    { st with products := st.products ++ [row], mint := cidMint.2 }
  | some row =>
    { st with
        products := st.products.map fun q =>
          if decide (q.parser_name = r.parser_name ∧ q.source_id = sid) then
            mergeProdRow row r primary settlement now
          else q }

/-- The first half of an `upsert_many` iteration: canonical id resolution,
persistent image dedup and back-fill; returns the state and the record the
write steps then consume. -/
def upsertRecordMid (hash : Str → Str) (now : Int) (st : CatalogState)
    (r0 : RecordM) : CatalogState × RecordM :=
  let rc := resolveCanonical st r0 now
  let r1 := { r0 with canonical_product_id := some rc.1 }
  let dd := applyImageDedup hash now rc.2 r1
  (dd.1, applyBackfill dd.1 dd.2)

/-- The snapshot row one `upsert_many` iteration appends. -/
def newSnapOf (hash : Str → Str) (now : Int) (st : CatalogState)
    (r0 : RecordM) : SnapRow :=
  let mid := upsertRecordMid hash now st r0
  let se := upsertSettlement mid.1 mid.2 now
  mkSnap se.2 mid.2 se.1 now

/-- One iteration of the `upsert_many` per-record loop. -/
def upsertOne (hash : Str → Str) (now : Int) (st : CatalogState) (r0 : RecordM) :
    CatalogState × RecordM :=
  let mid := upsertRecordMid hash now st r0
  let r3 := mid.2
  let se := upsertSettlement mid.1 r3 now
  let sn := insertSnapshot se.2 r3 se.1 now
  let ca := upsertCategories hash sn.2 r3 now
  let ps := upsertProductSource ca.2 r3 sn.1 now
  (upsertProductRow ps.1 ps.2 se.1 ca.1 now, ps.2)

/-- `upsert_many`: the per-record loop over a batch (the commit at the end
is a no-op in the model). -/
def upsertMany (hash : Str → Str) (now : Int) :
    CatalogState → List RecordM → CatalogState × List RecordM
  | st, [] => (st, [])
  | st, r :: rs =>
    let p := upsertOne hash now st r
    let q := upsertMany hash now p.1 rs
    (q.1, p.2 :: q.2)

/-- `_cursor_key`. -/
def cursorKey (parser : Str) : Str :=
  "receiver_cursor:".toList ++ lowerStr (pyStrip parser)

/-- `set_receiver_cursor`: rewrite the row with the JSON payload. -/
def setReceiverCursor (st : CatalogState) (parser : Str) (ingested_at : Str)
    (product_id : Int) (_now : Int) : CatalogState :=
  let key := cursorKey parser
  let payload : CursorPayload := ⟨ingested_at, product_id⟩
  if (st.sync_state.find? fun kv => decide (kv.1 = key)).isSome then
    { st with
        sync_state := st.sync_state.map fun kv =>
          if decide (kv.1 = key) then (kv.1, payload) else kv }
  else { st with sync_state := st.sync_state ++ [(key, payload)] }

/-- `get_receiver_cursor`: the stored value is the JSON object written by
`set_receiver_cursor`; `ingested_at` goes through `_safe_str`, and the
integer `product_id` passes the `isinstance(..., int)` branch. -/
def getReceiverCursor (st : CatalogState) (parser : Str) :
    Option Str × Option Int :=
  match (st.sync_state.find? fun kv => decide (kv.1 = cursorKey parser)).map (·.2) with
  | none => (none, none)
  | some payload => (safeStr (some payload.ingested_at), some payload.product_id)

/-! ### Frame lemmas: which table each sub-operation touches. -/

theorem resolve_snapshots (st : CatalogState) (r : RecordM) (now : Int) :
    (resolveCanonical st r now).2.snapshots = st.snapshots := rfl

theorem resolve_fingerprints (st : CatalogState) (r : RecordM) (now : Int) :
    (resolveCanonical st r now).2.fingerprints = st.fingerprints := rfl

theorem resolve_sources (st : CatalogState) (r : RecordM) (now : Int) :
    (resolveCanonical st r now).2.sources = st.sources := rfl

theorem resolve_products (st : CatalogState) (r : RecordM) (now : Int) :
    (resolveCanonical st r now).2.products = st.products := rfl

theorem dedup_snapshots (hash : Str → Str) (now : Int) (st : CatalogState) (r : RecordM) :
    (applyImageDedup hash now st r).1.snapshots = st.snapshots := rfl

theorem dedup_identity (hash : Str → Str) (now : Int) (st : CatalogState) (r : RecordM) :
    (applyImageDedup hash now st r).1.identity_map = st.identity_map := rfl

theorem dedup_sources (hash : Str → Str) (now : Int) (st : CatalogState) (r : RecordM) :
    (applyImageDedup hash now st r).1.sources = st.sources := rfl

theorem dedup_products (hash : Str → Str) (now : Int) (st : CatalogState) (r : RecordM) :
    (applyImageDedup hash now st r).1.products = st.products := rfl

theorem settle_snapshots (st : CatalogState) (r : RecordM) (now : Int) :
    (upsertSettlement st r now).2.snapshots = st.snapshots := by
  unfold upsertSettlement
  repeat' split <;> try rfl

theorem settle_fingerprints (st : CatalogState) (r : RecordM) (now : Int) :
    (upsertSettlement st r now).2.fingerprints = st.fingerprints := by
  unfold upsertSettlement
  repeat' split <;> try rfl

theorem settle_identity (st : CatalogState) (r : RecordM) (now : Int) :
    (upsertSettlement st r now).2.identity_map = st.identity_map := by
  unfold upsertSettlement
  repeat' split <;> try rfl

theorem settle_sources (st : CatalogState) (r : RecordM) (now : Int) :
    (upsertSettlement st r now).2.sources = st.sources := by
  unfold upsertSettlement
  repeat' split <;> try rfl

theorem settle_products (st : CatalogState) (r : RecordM) (now : Int) :
    (upsertSettlement st r now).2.products = st.products := by
  unfold upsertSettlement
  repeat' split <;> try rfl

theorem settle_mint (st : CatalogState) (r : RecordM) (now : Int) :
    (upsertSettlement st r now).2.mint = st.mint := by
  unfold upsertSettlement
  repeat' split <;> try rfl

theorem insert_snapshots (st : CatalogState) (r : RecordM) (sett : Option Nat) (now : Int) :
    (insertSnapshot st r sett now).2.snapshots = st.snapshots ++ [mkSnap st r sett now] := rfl

theorem insert_fingerprints (st : CatalogState) (r : RecordM) (sett : Option Nat) (now : Int) :
    (insertSnapshot st r sett now).2.fingerprints = st.fingerprints := rfl

theorem insert_identity (st : CatalogState) (r : RecordM) (sett : Option Nat) (now : Int) :
    (insertSnapshot st r sett now).2.identity_map = st.identity_map := rfl

theorem insert_sources (st : CatalogState) (r : RecordM) (sett : Option Nat) (now : Int) :
    (insertSnapshot st r sett now).2.sources = st.sources := rfl

theorem insert_products (st : CatalogState) (r : RecordM) (sett : Option Nat) (now : Int) :
    (insertSnapshot st r sett now).2.products = st.products := rfl

theorem catStep_snapshots (hash : Str → Str) (parser : Str) (obs now : Int)
    (acc : List (Nat × Nat) × CatalogState) (cand : Nat × Str) :
    (upsertCategoryStep hash parser obs now acc cand).2.snapshots = acc.2.snapshots := by
  obtain ⟨idx, title⟩ := cand
  simp only [upsertCategoryStep]
  repeat' split <;> try rfl

theorem catStep_fingerprints (hash : Str → Str) (parser : Str) (obs now : Int)
    (acc : List (Nat × Nat) × CatalogState) (cand : Nat × Str) :
    (upsertCategoryStep hash parser obs now acc cand).2.fingerprints = acc.2.fingerprints := by
  obtain ⟨idx, title⟩ := cand
  simp only [upsertCategoryStep]
  repeat' split <;> try rfl

theorem catStep_identity (hash : Str → Str) (parser : Str) (obs now : Int)
    (acc : List (Nat × Nat) × CatalogState) (cand : Nat × Str) :
    (upsertCategoryStep hash parser obs now acc cand).2.identity_map = acc.2.identity_map := by
  obtain ⟨idx, title⟩ := cand
  simp only [upsertCategoryStep]
  repeat' split <;> try rfl

theorem catStep_sources (hash : Str → Str) (parser : Str) (obs now : Int)
    (acc : List (Nat × Nat) × CatalogState) (cand : Nat × Str) :
    (upsertCategoryStep hash parser obs now acc cand).2.sources = acc.2.sources := by
  obtain ⟨idx, title⟩ := cand
  simp only [upsertCategoryStep]
  repeat' split <;> try rfl

theorem catStep_products (hash : Str → Str) (parser : Str) (obs now : Int)
    (acc : List (Nat × Nat) × CatalogState) (cand : Nat × Str) :
    (upsertCategoryStep hash parser obs now acc cand).2.products = acc.2.products := by
  obtain ⟨idx, title⟩ := cand
  simp only [upsertCategoryStep]
  repeat' split <;> try rfl

theorem catStep_mint (hash : Str → Str) (parser : Str) (obs now : Int)
    (acc : List (Nat × Nat) × CatalogState) (cand : Nat × Str) :
    (upsertCategoryStep hash parser obs now acc cand).2.mint = acc.2.mint := by
  obtain ⟨idx, title⟩ := cand
  simp only [upsertCategoryStep]
  repeat' split <;> try rfl

theorem catsAux_snapshots (hash : Str → Str) (parser : Str) (obs now : Int) :
    ∀ (cands : List (Nat × Str)) (acc : List (Nat × Nat) × CatalogState),
      (upsertCategoriesAux hash parser obs now cands acc).2.snapshots = acc.2.snapshots := by
  intro cands
  induction cands with
  | nil => intro acc; rfl
  | cons c rest ih =>
    intro acc
    unfold upsertCategoriesAux
    rw [ih, catStep_snapshots]

theorem catsAux_fingerprints (hash : Str → Str) (parser : Str) (obs now : Int) :
    ∀ (cands : List (Nat × Str)) (acc : List (Nat × Nat) × CatalogState),
      (upsertCategoriesAux hash parser obs now cands acc).2.fingerprints = acc.2.fingerprints := by
  intro cands
  induction cands with
  | nil => intro acc; rfl
  | cons c rest ih =>
    intro acc
    unfold upsertCategoriesAux
    rw [ih, catStep_fingerprints]

theorem catsAux_identity (hash : Str → Str) (parser : Str) (obs now : Int) :
    ∀ (cands : List (Nat × Str)) (acc : List (Nat × Nat) × CatalogState),
      (upsertCategoriesAux hash parser obs now cands acc).2.identity_map = acc.2.identity_map := by
  intro cands
  induction cands with
  | nil => intro acc; rfl
  | cons c rest ih =>
    intro acc
    unfold upsertCategoriesAux
    rw [ih, catStep_identity]

theorem catsAux_sources (hash : Str → Str) (parser : Str) (obs now : Int) :
    ∀ (cands : List (Nat × Str)) (acc : List (Nat × Nat) × CatalogState),
      (upsertCategoriesAux hash parser obs now cands acc).2.sources = acc.2.sources := by
  intro cands
  induction cands with
  | nil => intro acc; rfl
  | cons c rest ih =>
    intro acc
    unfold upsertCategoriesAux
    rw [ih, catStep_sources]

theorem catsAux_products (hash : Str → Str) (parser : Str) (obs now : Int) :
    ∀ (cands : List (Nat × Str)) (acc : List (Nat × Nat) × CatalogState),
      (upsertCategoriesAux hash parser obs now cands acc).2.products = acc.2.products := by
  intro cands
  induction cands with
  | nil => intro acc; rfl
  | cons c rest ih =>
    intro acc
    unfold upsertCategoriesAux
    rw [ih, catStep_products]

theorem catsAux_mint (hash : Str → Str) (parser : Str) (obs now : Int) :
    ∀ (cands : List (Nat × Str)) (acc : List (Nat × Nat) × CatalogState),
      (upsertCategoriesAux hash parser obs now cands acc).2.mint = acc.2.mint := by
  intro cands
  induction cands with
  | nil => intro acc; rfl
  | cons c rest ih =>
    intro acc
    unfold upsertCategoriesAux
    rw [ih, catStep_mint]

theorem source_snapshots (st : CatalogState) (r : RecordM) (snapId : Nat) (now : Int) :
    (upsertProductSource st r snapId now).1.snapshots = st.snapshots := by
  simp only [upsertProductSource]
  repeat' split <;> try rfl

theorem source_fingerprints (st : CatalogState) (r : RecordM) (snapId : Nat) (now : Int) :
    (upsertProductSource st r snapId now).1.fingerprints = st.fingerprints := by
  simp only [upsertProductSource]
  repeat' split <;> try rfl

theorem source_identity (st : CatalogState) (r : RecordM) (snapId : Nat) (now : Int) :
    (upsertProductSource st r snapId now).1.identity_map = st.identity_map := by
  simp only [upsertProductSource]
  repeat' split <;> try rfl

theorem source_products (st : CatalogState) (r : RecordM) (snapId : Nat) (now : Int) :
    (upsertProductSource st r snapId now).1.products = st.products := by
  simp only [upsertProductSource]
  repeat' split <;> try rfl

theorem prodrow_snapshots (st : CatalogState) (r : RecordM) (sett : Option Nat)
    (cats : List (Nat × Nat)) (now : Int) :
    (upsertProductRow st r sett cats now).snapshots = st.snapshots := by
  simp only [upsertProductRow]
  repeat' split <;> try rfl

theorem prodrow_fingerprints (st : CatalogState) (r : RecordM) (sett : Option Nat)
    (cats : List (Nat × Nat)) (now : Int) :
    (upsertProductRow st r sett cats now).fingerprints = st.fingerprints := by
  simp only [upsertProductRow]
  repeat' split <;> try rfl

theorem prodrow_identity (st : CatalogState) (r : RecordM) (sett : Option Nat)
    (cats : List (Nat × Nat)) (now : Int) :
    (upsertProductRow st r sett cats now).identity_map = st.identity_map := by
  simp only [upsertProductRow]
  repeat' split <;> try rfl

theorem prodrow_sources (st : CatalogState) (r : RecordM) (sett : Option Nat)
    (cats : List (Nat × Nat)) (now : Int) :
    (upsertProductRow st r sett cats now).sources = st.sources := by
  simp only [upsertProductRow]
  repeat' split <;> try rfl

/-! ### The record fields the back-fill loop leaves untouched. -/

/-- Everything except the six `BACKFILL_FIELDS`. -/
def sameCore (a b : RecordM) : Prop :=
  a.parser_name = b.parser_name ∧ a.source_id = b.source_id ∧
  a.plu = b.plu ∧ a.sku = b.sku ∧
  a.canonical_product_id = b.canonical_product_id ∧
  a.observed_at = b.observed_at ∧
  a.image_urls = b.image_urls ∧
  a.duplicate_image_urls = b.duplicate_image_urls ∧
  a.image_fingerprints = b.image_fingerprints ∧
  a.raw_title = b.raw_title ∧
  a.title_original = b.title_original ∧
  a.title_normalized = b.title_normalized ∧
  a.title_original_no_stopwords = b.title_original_no_stopwords ∧
  a.title_normalized_no_stopwords = b.title_normalized_no_stopwords ∧
  a.unit = b.unit ∧
  a.available_count = b.available_count ∧
  a.category_raw = b.category_raw ∧
  a.geo_raw = b.geo_raw ∧
  a.composition_raw = b.composition_raw ∧
  a.raw_payload = b.raw_payload

theorem sameCore_refl (a : RecordM) : sameCore a a := by
  unfold sameCore
  exact ⟨rfl, rfl, rfl, rfl, rfl, rfl, rfl, rfl, rfl, rfl, rfl, rfl, rfl, rfl,
    rfl, rfl, rfl, rfl, rfl, rfl⟩

theorem sameCore_trans {a b c : RecordM} (h1 : sameCore a b) (h2 : sameCore b c) :
    sameCore a c := by
  unfold sameCore at h1 h2 ⊢
  obtain ⟨a1, a2, a3, a4, a5, a6, a7, a8, a9, a10, a11, a12, a13, a14, a15, a16, a17, a18, a19, a20⟩ := h1
  obtain ⟨b1, b2, b3, b4, b5, b6, b7, b8, b9, b10, b11, b12, b13, b14, b15, b16, b17, b18, b19, b20⟩ := h2
  exact ⟨a1.trans b1, a2.trans b2, a3.trans b3, a4.trans b4, a5.trans b5,
    a6.trans b6, a7.trans b7, a8.trans b8, a9.trans b9, a10.trans b10,
    a11.trans b11, a12.trans b12, a13.trans b13, a14.trans b14, a15.trans b15,
    a16.trans b16, a17.trans b17, a18.trans b18, a19.trans b19, a20.trans b20⟩

theorem setR_core (r : RecordM) (f : BackField) (v : Val) :
    sameCore (setR r f v) r := by
  cases f <;> cases v <;> exact sameCore_refl _

theorem backfillStep_core (hist : List HistItem) (target : Int) (rec : RecordM)
    (f : BackField) : sameCore (backfillStep hist target rec f) rec := by
  unfold backfillStep
  split
  · split
    · exact setR_core _ _ _
    · exact sameCore_refl _
  · exact sameCore_refl _

theorem backfillFold_core (hist : List HistItem) (target : Int) :
    ∀ (fs : List BackField) (rec : RecordM),
      sameCore (fs.foldl (backfillStep hist target) rec) rec := by
  intro fs
  induction fs with
  | nil => intro rec; exact sameCore_refl _
  | cons f rest ih =>
    intro rec
    rw [List.foldl_cons]
    exact sameCore_trans (ih _) (backfillStep_core hist target rec f)

theorem applyBackfill_core (st : CatalogState) (r : RecordM) :
    sameCore (applyBackfill st r) r := by
  unfold applyBackfill
  split
  · exact sameCore_refl _
  · dsimp only
    split
    · exact sameCore_refl _
    · exact backfillFold_core _ _ _ _

theorem sourceIdOf_of_safe {r : RecordM} {sid : Str}
    (h : safeStr r.source_id = some sid) : sourceIdOf r = sid := by
  unfold sourceIdOf
  rw [h]

theorem cats_snapshots (hash : Str → Str) (st : CatalogState) (r : RecordM) (now : Int) :
    (upsertCategories hash st r now).2.snapshots = st.snapshots := by
  unfold upsertCategories
  rw [catsAux_snapshots]

theorem cats_fingerprints (hash : Str → Str) (st : CatalogState) (r : RecordM) (now : Int) :
    (upsertCategories hash st r now).2.fingerprints = st.fingerprints := by
  unfold upsertCategories
  rw [catsAux_fingerprints]

theorem cats_identity (hash : Str → Str) (st : CatalogState) (r : RecordM) (now : Int) :
    (upsertCategories hash st r now).2.identity_map = st.identity_map := by
  unfold upsertCategories
  rw [catsAux_identity]

theorem cats_sources (hash : Str → Str) (st : CatalogState) (r : RecordM) (now : Int) :
    (upsertCategories hash st r now).2.sources = st.sources := by
  unfold upsertCategories
  rw [catsAux_sources]

theorem cats_products (hash : Str → Str) (st : CatalogState) (r : RecordM) (now : Int) :
    (upsertCategories hash st r now).2.products = st.products := by
  unfold upsertCategories
  rw [catsAux_products]

/-- Rows of `catalog_product_snapshots` for one `(parser_name, source_id)`. -/
def snapCount (st : CatalogState) (p sid : Str) : Nat :=
  (st.snapshots.filter fun s => decide (s.parser_name = p ∧ s.source_id = sid)).length

/-- The record the write steps consume retains the identification fields of
the input record (only the canonical id, the image fields and the six
back-fill fields can change before the writes). -/
theorem upsertRecordMid_fields (hash : Str → Str) (now : Int)
    (st : CatalogState) (r : RecordM) :
    (upsertRecordMid hash now st r).2.parser_name = r.parser_name ∧
    (upsertRecordMid hash now st r).2.source_id = r.source_id ∧
    (upsertRecordMid hash now st r).2.plu = r.plu ∧
    (upsertRecordMid hash now st r).2.sku = r.sku ∧
    (upsertRecordMid hash now st r).2.canonical_product_id =
      some (resolveCanonical st r now).1 ∧
    (upsertRecordMid hash now st r).2.observed_at = r.observed_at ∧
    (upsertRecordMid hash now st r).2.raw_title = r.raw_title ∧
    (upsertRecordMid hash now st r).2.title_original = r.title_original ∧
    (upsertRecordMid hash now st r).2.title_normalized = r.title_normalized ∧
    (upsertRecordMid hash now st r).2.title_original_no_stopwords =
      r.title_original_no_stopwords ∧
    (upsertRecordMid hash now st r).2.title_normalized_no_stopwords =
      r.title_normalized_no_stopwords ∧
    (upsertRecordMid hash now st r).2.unit = r.unit ∧
    (upsertRecordMid hash now st r).2.available_count = r.available_count ∧
    (upsertRecordMid hash now st r).2.category_raw = r.category_raw ∧
    (upsertRecordMid hash now st r).2.geo_raw = r.geo_raw ∧
    (upsertRecordMid hash now st r).2.composition_raw = r.composition_raw ∧
    (upsertRecordMid hash now st r).2.raw_payload = r.raw_payload := by
  unfold upsertRecordMid
  dsimp only
  refine ⟨(applyBackfill_core _ _).1.trans rfl,
    (applyBackfill_core _ _).2.1.trans rfl,
    (applyBackfill_core _ _).2.2.1.trans rfl,
    (applyBackfill_core _ _).2.2.2.1.trans rfl,
    (applyBackfill_core _ _).2.2.2.2.1.trans rfl,
    (applyBackfill_core _ _).2.2.2.2.2.1.trans rfl,
    (applyBackfill_core _ _).2.2.2.2.2.2.2.2.2.1.trans rfl,
    (applyBackfill_core _ _).2.2.2.2.2.2.2.2.2.2.1.trans rfl,
    (applyBackfill_core _ _).2.2.2.2.2.2.2.2.2.2.2.1.trans rfl,
    (applyBackfill_core _ _).2.2.2.2.2.2.2.2.2.2.2.2.1.trans rfl,
    (applyBackfill_core _ _).2.2.2.2.2.2.2.2.2.2.2.2.2.1.trans rfl,
    (applyBackfill_core _ _).2.2.2.2.2.2.2.2.2.2.2.2.2.2.1.trans rfl,
    (applyBackfill_core _ _).2.2.2.2.2.2.2.2.2.2.2.2.2.2.2.1.trans rfl,
    (applyBackfill_core _ _).2.2.2.2.2.2.2.2.2.2.2.2.2.2.2.2.1.trans rfl,
    (applyBackfill_core _ _).2.2.2.2.2.2.2.2.2.2.2.2.2.2.2.2.2.1.trans rfl,
    (applyBackfill_core _ _).2.2.2.2.2.2.2.2.2.2.2.2.2.2.2.2.2.2.1.trans rfl,
    (applyBackfill_core _ _).2.2.2.2.2.2.2.2.2.2.2.2.2.2.2.2.2.2.2.trans rfl⟩

theorem upsertRecordMid_fingerprints_frame (hash : Str → Str) (now : Int)
    (st : CatalogState) (r : RecordM) :
    (upsertRecordMid hash now st r).1.snapshots = st.snapshots ∧
    (upsertRecordMid hash now st r).1.sources = st.sources ∧
    (upsertRecordMid hash now st r).1.products = st.products := by
  unfold upsertRecordMid
  exact ⟨rfl, rfl, rfl⟩

/-- Each `upsert_many` iteration appends exactly one snapshot row, keyed by
the record's raw parser name and its `_source_id`. -/
theorem upsertOne_snapshots_spec (hash : Str → Str) (now : Int)
    (st : CatalogState) (r : RecordM) :
    (upsertOne hash now st r).1.snapshots = st.snapshots ++ [newSnapOf hash now st r] := by
  unfold upsertOne newSnapOf
  dsimp only
  rw [prodrow_snapshots, source_snapshots, cats_snapshots, insert_snapshots,
    settle_snapshots]
  rw [(upsertRecordMid_fingerprints_frame hash now st r).1]

theorem newSnapOf_parserName (hash : Str → Str) (now : Int) (st : CatalogState)
    (r : RecordM) : (newSnapOf hash now st r).parser_name = r.parser_name := by
  simp only [newSnapOf, mkSnap]
  exact (upsertRecordMid_fields hash now st r).1

theorem newSnapOf_source (hash : Str → Str) (now : Int) (st : CatalogState)
    (r : RecordM) (sid : Str) (h : safeStr r.source_id = some sid) :
    (newSnapOf hash now st r).source_id = sid := by
  simp only [newSnapOf, mkSnap]
  refine sourceIdOf_of_safe ?_
  rw [(upsertRecordMid_fields hash now st r).2.1]
  exact h

theorem upsertMany_cons (hash : Str → Str) (now : Int) (st : CatalogState)
    (r : RecordM) (rs : List RecordM) :
    (upsertMany hash now st (r :: rs)).1 =
      (upsertMany hash now (upsertOne hash now st r).1 rs).1 := by
  simp only [upsertMany]

theorem upsertMany_single (hash : Str → Str) (now : Int) (st : CatalogState)
    (r : RecordM) :
    (upsertMany hash now st [r]).1 = (upsertOne hash now st r).1 := by
  simp only [upsertMany]

theorem upsertMany_append_only (hash : Str → Str) (now : Int) :
    ∀ (rs : List RecordM) (st : CatalogState),
      ∃ t, (upsertMany hash now st rs).1.snapshots = st.snapshots ++ t := by
  intro rs
  induction rs with
  | nil => intro st; exact ⟨[], (List.append_nil _).symm⟩
  | cons r rest ih =>
    intro st
    obtain ⟨t, ht⟩ := ih (upsertOne hash now st r).1
    refine ⟨newSnapOf hash now st r :: t, ?_⟩
    rw [upsertMany_cons, ht, upsertOne_snapshots_spec, List.append_assoc]
    rfl

theorem upsertOne_snapCount (hash : Str → Str) (now : Int) (st : CatalogState)
    (r : RecordM) (p sid : Str)
    (hp : r.parser_name = p) (hs : safeStr r.source_id = some sid) :
    snapCount (upsertOne hash now st r).1 p sid = snapCount st p sid + 1 := by
  unfold snapCount
  rw [upsertOne_snapshots_spec, List.filter_append]
  have h1 : (newSnapOf hash now st r).parser_name = p :=
    (newSnapOf_parserName hash now st r).trans hp
  have h2 : (newSnapOf hash now st r).source_id = sid :=
    newSnapOf_source hash now st r sid hs
  simp [h1, h2]

/-! ### Image fingerprint invariants (C4). -/

/-- The fingerprint row exists and carries canonical URL `c`. -/
def fpGood (fps : List FpRow) (fp c : Str) : Prop :=
  ∃ row, fpLookup fps fp = some row ∧ row.canonical_url = c

/-- `fpGood` plus a bumped `updated_at`. -/
def fpGoodNow (fps : List FpRow) (fp c : Str) (now : Int) : Prop :=
  ∃ row, fpLookup fps fp = some row ∧ row.canonical_url = c ∧ row.updated_at = now

theorem fpLookup_append_of_some {l : List FpRow} {fp : Str} {row : FpRow}
    (h : fpLookup l fp = some row) (x : FpRow) :
    fpLookup (l ++ [x]) fp = some row := by
  unfold fpLookup at h ⊢
  rw [List.find?_append, h]
  rfl

theorem bumpRow_fingerprint (fp : Str) (now : Int) (q : FpRow) :
    (if decide (q.fingerprint = fp) = true then { q with updated_at := now }
      else q).fingerprint = q.fingerprint := by
  split <;> rfl

theorem fpLookup_bump (l : List FpRow) (fp : Str) (now : Int) (fp0 : Str) :
    fpLookup (fpBump l fp now) fp0 =
      (fpLookup l fp0).map fun row =>
        if row.fingerprint = fp then { row with updated_at := now } else row := by
  unfold fpBump
  induction l with
  | nil => rfl
  | cons row rest ih =>
    rw [List.map_cons]
    unfold fpLookup
    by_cases h0 : row.fingerprint = fp0
    · rw [List.find?_cons_of_pos _
        (by simp only [bumpRow_fingerprint]; simp [h0])]
      rw [List.find?_cons_of_pos _ (by simp [h0])]
      by_cases hb : row.fingerprint = fp
      · simp [hb]
      · simp [hb]
    · rw [List.find?_cons_of_neg _
        (by simp only [bumpRow_fingerprint]; simp [h0])]
      rw [List.find?_cons_of_neg _ (by simp [h0])]
      exact ih

theorem fpGood_bump {l : List FpRow} {fp0 c : Str} (fp : Str) (now : Int)
    (h : fpGood l fp0 c) : fpGood (fpBump l fp now) fp0 c := by
  obtain ⟨row, hrow, hc⟩ := h
  refine ⟨if row.fingerprint = fp then { row with updated_at := now } else row,
    ?_, ?_⟩
  · rw [fpLookup_bump, hrow]
    rfl
  · split <;> exact hc

theorem fpGoodNow_bump {l : List FpRow} {fp0 c : Str} {now : Int} (fp : Str)
    (h : fpGoodNow l fp0 c now) : fpGoodNow (fpBump l fp now) fp0 c now := by
  obtain ⟨row, hrow, hc, hn⟩ := h
  refine ⟨if row.fingerprint = fp then { row with updated_at := now } else row,
    ?_, ?_, ?_⟩
  · rw [fpLookup_bump, hrow]
    rfl
  · split <;> exact hc
  · split
    · rfl
    · exact hn

theorem dedupFinish_fps (acc : DedupAcc) (fp c u : Str) :
    (dedupFinish acc fp c u).fps = acc.fps := by
  unfold dedupFinish
  split <;> rfl

theorem fpGood_dedupStep (hash : Str → Str) (now : Int) {fp0 c : Str}
    (acc : DedupAcc) (raw : Str) (h : fpGood acc.fps fp0 c) :
    fpGood (dedupStep hash now acc raw).fps fp0 c := by
  unfold dedupStep
  dsimp only
  split
  · exact h
  · split
    · rw [dedupFinish_fps]
      obtain ⟨row, hrow, hc⟩ := h
      exact ⟨row, fpLookup_append_of_some hrow _, hc⟩
    · rw [dedupFinish_fps]
      exact fpGood_bump _ now h

theorem fpGoodNow_dedupStep (hash : Str → Str) {now : Int} {fp0 c : Str}
    (acc : DedupAcc) (raw : Str) (h : fpGoodNow acc.fps fp0 c now) :
    fpGoodNow (dedupStep hash now acc raw).fps fp0 c now := by
  unfold dedupStep
  dsimp only
  split
  · exact h
  · split
    · rw [dedupFinish_fps]
      obtain ⟨row, hrow, hc, hn⟩ := h
      exact ⟨row, fpLookup_append_of_some hrow _, hc, hn⟩
    · rw [dedupFinish_fps]
      exact fpGoodNow_bump _ h

theorem fpGood_dedupFold (hash : Str → Str) (now : Int) {fp0 c : Str} :
    ∀ (urls : List Str) (acc : DedupAcc), fpGood acc.fps fp0 c →
      fpGood (urls.foldl (dedupStep hash now) acc).fps fp0 c := by
  intro urls
  induction urls with
  | nil => intro acc h; exact h
  | cons u rest ih =>
    intro acc h
    rw [List.foldl_cons]
    exact ih _ (fpGood_dedupStep hash now acc u h)

theorem fpGoodNow_dedupFold (hash : Str → Str) {now : Int} {fp0 c : Str} :
    ∀ (urls : List Str) (acc : DedupAcc), fpGoodNow acc.fps fp0 c now →
      fpGoodNow (urls.foldl (dedupStep hash now) acc).fps fp0 c now := by
  intro urls
  induction urls with
  | nil => intro acc h; exact h
  | cons u rest ih =>
    intro acc h
    rw [List.foldl_cons]
    exact ih _ (fpGoodNow_dedupStep hash acc u h)

/-- Output lists of the dedup loop only ever grow. -/
theorem dedupStep_mono (hash : Str → Str) (now : Int) (acc : DedupAcc) (raw : Str) :
    (∀ x ∈ acc.dups, x ∈ (dedupStep hash now acc raw).dups) ∧
    (∀ x ∈ acc.uniq, x ∈ (dedupStep hash now acc raw).uniq) := by
  unfold dedupStep dedupFinish
  dsimp only
  constructor
  · intro x hx
    repeat' split
    all_goals simp_all [List.mem_append]
  · intro x hx
    repeat' split
    all_goals simp_all [List.mem_append]

theorem dedupFold_mono (hash : Str → Str) (now : Int) :
    ∀ (urls : List Str) (acc : DedupAcc),
      (∀ x ∈ acc.dups, x ∈ (urls.foldl (dedupStep hash now) acc).dups) ∧
      (∀ x ∈ acc.uniq, x ∈ (urls.foldl (dedupStep hash now) acc).uniq) := by
  intro urls
  induction urls with
  | nil => intro acc; exact ⟨fun x hx => hx, fun x hx => hx⟩
  | cons u rest ih =>
    intro acc
    rw [List.foldl_cons]
    refine ⟨fun x hx => ?_, fun x hx => ?_⟩
    · exact (ih _).1 x ((dedupStep_mono hash now acc u).1 x hx)
    · exact (ih _).2 x ((dedupStep_mono hash now acc u).2 x hx)

/-- The invariant carried through the dedup loop for one pre-existing
fingerprint `fp` with canonical URL `c`: the row keeps canonical `c`, and
once the fingerprint was seen in the record its canonical URL is already
among the output image URLs. -/
def dupInv (fp c : Str) (acc : DedupAcc) : Prop :=
  fpGood acc.fps fp c ∧ (fp ∈ acc.seen → c ∈ acc.uniq)

theorem dupInv_step (hash : Str → Str) (now : Int) {fp c : Str}
    (acc : DedupAcc) (raw : Str) (h : dupInv fp c acc) :
    dupInv fp c (dedupStep hash now acc raw) := by
  refine ⟨fpGood_dedupStep hash now acc raw h.1, ?_⟩
  obtain ⟨⟨row0, hrow0, hc0⟩, hs⟩ := h
  unfold dedupStep dedupFinish
  dsimp only
  split
  · exact hs
  · split
    · rename_i hmiss
      split
      · exact fun hin => hs hin
      · intro hin
        rcases List.mem_cons.mp hin with heq | hin2
        · exfalso
          rw [heq, hmiss] at hrow0
          cases hrow0
        · exact List.mem_append.mpr (Or.inl (hs hin2))
    · rename_i row hhit
      split
      · exact fun hin => hs hin
      · intro hin
        rcases List.mem_cons.mp hin with heq | hin2
        · have hrr : row = row0 := by
            rw [heq] at hrow0
            exact Option.some.inj (hhit.symm.trans hrow0)
          apply List.mem_append.mpr
          right
          simp [hrr, hc0]
        · exact List.mem_append.mpr (Or.inl (hs hin2))

theorem dedupStep_hit (hash : Str → Str) (now : Int) {fp c : Str}
    (acc : DedupAcc) (raw : Str)
    (hne : ¬ pyStrip raw = []) (hfp : fp = hash (pyStrip raw))
    (hinv : dupInv fp c acc) (hdiff : c ≠ pyStrip raw) :
    pyStrip raw ∈ (dedupStep hash now acc raw).dups ∧
    c ∈ (dedupStep hash now acc raw).uniq ∧
    fpGoodNow (dedupStep hash now acc raw).fps fp c now := by
  obtain ⟨⟨row0, hrow0, hc0⟩, hs⟩ := hinv
  have hf0 : row0.fingerprint = fp := by
    simpa using List.find?_some hrow0
  unfold dedupStep dedupFinish
  dsimp only
  rw [if_neg hne, ← hfp, hrow0]
  dsimp only
  have hcne : ¬ row0.canonical_url = pyStrip raw := by
    rw [hc0]; exact hdiff
  rw [if_pos hcne]
  have hgn : fpGoodNow (fpBump acc.fps fp now) fp c now := by
    refine ⟨{ row0 with updated_at := now }, ?_, hc0, rfl⟩
    rw [fpLookup_bump, hrow0]
    simp [hf0]
  split
  · rename_i hseen
    exact ⟨by simp [List.mem_append], hs hseen, hgn⟩
  · refine ⟨by simp [List.mem_append], ?_, hgn⟩
    apply List.mem_append.mpr
    right
    simp [hc0]

theorem dedup_fold_hit (hash : Str → Str) (now : Int) {fp c : Str} :
    ∀ (urls : List Str) (acc : DedupAcc) (raw : Str), raw ∈ urls →
      ¬ pyStrip raw = [] → fp = hash (pyStrip raw) → c ≠ pyStrip raw →
      dupInv fp c acc →
      pyStrip raw ∈ (urls.foldl (dedupStep hash now) acc).dups ∧
      c ∈ (urls.foldl (dedupStep hash now) acc).uniq ∧
      fpGoodNow (urls.foldl (dedupStep hash now) acc).fps fp c now := by
  intro urls
  induction urls with
  | nil => intro acc raw hmem; cases hmem
  | cons w rest ih =>
    intro acc raw hmem hne hfp hdiff hinv
    rw [List.foldl_cons]
    rcases List.mem_cons.mp hmem with heq | hmem2
    · subst heq
      obtain ⟨hd, hu, hgn⟩ := dedupStep_hit hash now acc raw hne hfp hinv hdiff
      exact ⟨(dedupFold_mono hash now rest _).1 _ hd,
        (dedupFold_mono hash now rest _).2 _ hu,
        fpGoodNow_dedupFold hash rest _ hgn⟩
    · exact ih _ raw hmem2 hne hfp hdiff (dupInv_step hash now acc w hinv)

theorem applyImageDedup_hit (hash : Str → Str) (now : Int)
    (st : CatalogState) (r : RecordM) {raw c : Str}
    (hmem : raw ∈ r.image_urls) (hne : ¬ pyStrip raw = [])
    (hgood : fpGood st.fingerprints (hash (pyStrip raw)) c)
    (hdiff : c ≠ pyStrip raw) :
    pyStrip raw ∈ (applyImageDedup hash now st r).2.duplicate_image_urls ∧
    c ∈ (applyImageDedup hash now st r).2.image_urls ∧
    fpGoodNow (applyImageDedup hash now st r).1.fingerprints
      (hash (pyStrip raw)) c now := by
  unfold applyImageDedup
  dsimp only
  exact dedup_fold_hit hash now r.image_urls ⟨st.fingerprints, [], [], [], []⟩
    raw hmem hne rfl hdiff ⟨hgood, fun hin => absurd hin (List.not_mem_nil _)⟩

theorem source_rec_images (st : CatalogState) (r : RecordM) (snapId : Nat) (now : Int) :
    (upsertProductSource st r snapId now).2.image_urls = r.image_urls ∧
    (upsertProductSource st r snapId now).2.duplicate_image_urls =
      r.duplicate_image_urls := by
  simp only [upsertProductSource]
  repeat' split
  all_goals exact ⟨rfl, rfl⟩

theorem upsertOne_fpGood (hash : Str → Str) (now : Int) (st : CatalogState)
    (r : RecordM) {fp c : Str} (h : fpGood st.fingerprints fp c) :
    fpGood (upsertOne hash now st r).1.fingerprints fp c := by
  unfold upsertOne
  dsimp only
  rw [prodrow_fingerprints, source_fingerprints, cats_fingerprints,
    insert_fingerprints, settle_fingerprints]
  unfold upsertRecordMid
  dsimp only
  unfold applyImageDedup
  dsimp only
  exact fpGood_dedupFold hash now _ _ h

theorem upsertMany_fpGood (hash : Str → Str) (now : Int) :
    ∀ (rs : List RecordM) (st : CatalogState) {fp c : Str},
      fpGood st.fingerprints fp c →
      fpGood (upsertMany hash now st rs).1.fingerprints fp c := by
  intro rs
  induction rs with
  | nil => intro st fp c h; exact h
  | cons r rest ih =>
    intro st fp c h
    rw [upsertMany_cons]
    exact ih _ (upsertOne_fpGood hash now st r h)

theorem callsFold_fpGood (hash : Str → Str) :
    ∀ (calls : List (Int × List RecordM)) (st : CatalogState) {fp c : Str},
      fpGood st.fingerprints fp c →
      fpGood ((calls.foldl (fun s call => (upsertMany hash call.1 s call.2).1) st)).fingerprints fp c := by
  intro calls
  induction calls with
  | nil => intro st fp c h; exact h
  | cons call rest ih =>
    intro st fp c h
    rw [List.foldl_cons]
    exact ih _ (upsertMany_fpGood hash call.1 call.2 st h)

theorem calls_snapCount (hash : Str → Str) (now : Int) (p sid : Str) :
    ∀ (rs : List RecordM) (st : CatalogState),
      (∀ r ∈ rs, r.parser_name = p ∧ safeStr r.source_id = some sid) →
      snapCount (rs.foldl (fun s r => (upsertMany hash now s [r]).1) st) p sid =
        snapCount st p sid + rs.length := by
  intro rs
  induction rs with
  | nil => intro st _; simp
  | cons r rest ih =>
    intro st h
    rw [List.foldl_cons]
    have hr := h r (List.mem_cons_self _ _)
    rw [ih _ fun q hq => h q (List.mem_cons_of_mem _ hq)]
    rw [upsertMany_single, upsertOne_snapCount hash now st r p sid hr.1 hr.2]
    simp [Nat.add_assoc, Nat.add_comm 1]

/-! ### Product-row merge (C3). -/

theorem prodLookup_some_keys {l : List ProdRow} {p sid : Str} {row : ProdRow}
    (h : prodLookup l p sid = some row) :
    row.parser_name = p ∧ row.source_id = sid := by
  unfold prodLookup at h
  have h2 := List.find?_some h
  exact of_decide_eq_true h2

theorem mergeProdRow_keys (row : ProdRow) (r : RecordM) (primary settlement : Option Nat)
    (now : Int) :
    (mergeProdRow row r primary settlement now).parser_name = row.parser_name ∧
    (mergeProdRow row r primary settlement now).source_id = row.source_id :=
  ⟨rfl, rfl⟩

theorem prodLookup_replace_const (l : List ProdRow) (p sid : Str) (b : ProdRow)
    (hbp : b.parser_name = p) (hbs : b.source_id = sid)
    (h : (prodLookup l p sid).isSome) :
    prodLookup (l.map fun q =>
      if decide (q.parser_name = p ∧ q.source_id = sid) then b else q) p sid = some b := by
  induction l with
  | nil => simp [prodLookup] at h
  | cons q rest ih =>
    by_cases hq : q.parser_name = p ∧ q.source_id = sid
    · unfold prodLookup
      rw [List.map_cons, if_pos (by simpa using hq)]
      rw [List.find?_cons_of_pos _ (by simp [hbp, hbs])]
    · unfold prodLookup at ih h ⊢
      rw [List.map_cons, if_neg (by simpa using hq)]
      rw [List.find?_cons_of_neg _ (by simpa using hq)]
      rw [List.find?_cons_of_neg _ (by simpa using hq)] at h
      exact ih h

/-- On a hit, `_upsert_product_row` replaces the stored row by the merge of
the existing row with the incoming record. -/
theorem upsertProductRow_merge (st : CatalogState) (r : RecordM)
    (sett : Option Nat) (cats : List (Nat × Nat)) (now : Int)
    {p sid : Str} {row : ProdRow}
    (hp : r.parser_name = p) (hs : sourceIdOf r = sid)
    (hrow : prodLookup st.products p sid = some row) :
    prodLookup (upsertProductRow st r sett cats now).products p sid =
      some (mergeProdRow row r (primaryCategoryId cats) sett now) := by
  unfold upsertProductRow
  dsimp only
  rw [hp, hs, hrow]
  dsimp only
  exact prodLookup_replace_const st.products p sid _
    ((mergeProdRow_keys row r (primaryCategoryId cats) sett now).1.trans
      (prodLookup_some_keys hrow).1)
    ((mergeProdRow_keys row r (primaryCategoryId cats) sett now).2.trans
      (prodLookup_some_keys hrow).2)
    (by rw [hrow]; rfl)

/-- The settlement id handed to `_upsert_product_row` by one `upsert_many`
iteration. -/
def settOf (hash : Str → Str) (now : Int) (st : CatalogState) (r0 : RecordM) :
    Option Nat :=
  let mid := upsertRecordMid hash now st r0
  (upsertSettlement mid.1 mid.2 now).1

/-- The category links handed to `_upsert_product_row` by one `upsert_many`
iteration. -/
def catsOf (hash : Str → Str) (now : Int) (st : CatalogState) (r0 : RecordM) :
    List (Nat × Nat) :=
  let mid := upsertRecordMid hash now st r0
  let se := upsertSettlement mid.1 mid.2 now
  let sn := insertSnapshot se.2 mid.2 se.1 now
  (upsertCategories hash sn.2 mid.2 now).1

/-- When the key already has a `catalog_products` row, one `upsert_many`
iteration replaces it by the merge with the processed record. -/
theorem upsertOne_products_spec (hash : Str → Str) (now : Int)
    (st : CatalogState) (r : RecordM) (sid : Str) (row : ProdRow)
    (hsid : safeStr r.source_id = some sid)
    (hrow : prodLookup st.products r.parser_name sid = some row) :
    prodLookup (upsertOne hash now st r).1.products r.parser_name sid =
      some (mergeProdRow row (upsertOne hash now st r).2
        (primaryCategoryId (catsOf hash now st r)) (settOf hash now st r) now) := by
  unfold upsertOne settOf catsOf
  dsimp only
  refine upsertProductRow_merge _ _ _ _ now ?_ ?_ ?_
  · simp only [upsertProductSource]
    repeat' split
    all_goals exact (upsertRecordMid_fields hash now st r).1
  · refine sourceIdOf_of_safe ?_
    simp only [upsertProductSource]
    repeat' split
    all_goals exact
      (congrArg safeStr ((upsertRecordMid_fields hash now st r).2.1)).trans hsid
  · rw [source_products, cats_products, insert_products, settle_products,
      (upsertRecordMid_fingerprints_frame hash now st r).2.2]
    exact hrow

/-- The record consumed by `_upsert_product_row` keeps the input record's
identification, title, unit and payload fields; the back-fill fields and
images come from the mid-stage record. -/
theorem upsertOne_record_fields (hash : Str → Str) (now : Int)
    (st : CatalogState) (r : RecordM) :
    (upsertOne hash now st r).2.parser_name = r.parser_name ∧
    (upsertOne hash now st r).2.source_id = r.source_id ∧
    (upsertOne hash now st r).2.plu = r.plu ∧
    (upsertOne hash now st r).2.sku = r.sku ∧
    (upsertOne hash now st r).2.unit = r.unit ∧
    (upsertOne hash now st r).2.available_count = r.available_count ∧
    (upsertOne hash now st r).2.composition_raw = r.composition_raw ∧
    (upsertOne hash now st r).2.raw_title = r.raw_title ∧
    (upsertOne hash now st r).2.title_original = r.title_original ∧
    (upsertOne hash now st r).2.title_normalized = r.title_normalized ∧
    (upsertOne hash now st r).2.title_original_no_stopwords =
      r.title_original_no_stopwords ∧
    (upsertOne hash now st r).2.title_normalized_no_stopwords =
      r.title_normalized_no_stopwords ∧
    (upsertOne hash now st r).2.observed_at = r.observed_at ∧
    (upsertOne hash now st r).2.raw_payload = r.raw_payload ∧
    (upsertOne hash now st r).2.brand = (upsertRecordMid hash now st r).2.brand ∧
    (upsertOne hash now st r).2.package_quantity =
      (upsertRecordMid hash now st r).2.package_quantity ∧
    (upsertOne hash now st r).2.package_unit =
      (upsertRecordMid hash now st r).2.package_unit ∧
    (upsertOne hash now st r).2.composition_normalized =
      (upsertRecordMid hash now st r).2.composition_normalized ∧
    (upsertOne hash now st r).2.image_urls =
      (upsertRecordMid hash now st r).2.image_urls := by
  obtain ⟨m1, m2, m3, m4, _m5, m6, m7, m8, m9, m10, m11, m12, m13, _m14, _m15, m16, m17⟩ :=
    upsertRecordMid_fields hash now st r
  unfold upsertOne
  dsimp only
  refine ⟨?_, ?_, ?_, ?_, ?_, ?_, ?_, ?_, ?_, ?_, ?_, ?_, ?_, ?_, ?_, ?_, ?_, ?_, ?_⟩
  · simp only [upsertProductSource]; split
    · exact m1
    · split <;> exact m1
  · simp only [upsertProductSource]; split
    · exact m2
    · split <;> exact m2
  · simp only [upsertProductSource]; split
    · exact m3
    · split <;> exact m3
  · simp only [upsertProductSource]; split
    · exact m4
    · split <;> exact m4
  · simp only [upsertProductSource]; split
    · exact m12
    · split <;> exact m12
  · simp only [upsertProductSource]; split
    · exact m13
    · split <;> exact m13
  · simp only [upsertProductSource]; split
    · exact m16
    · split <;> exact m16
  · simp only [upsertProductSource]; split
    · exact m7
    · split <;> exact m7
  · simp only [upsertProductSource]; split
    · exact m8
    · split <;> exact m8
  · simp only [upsertProductSource]; split
    · exact m9
    · split <;> exact m9
  · simp only [upsertProductSource]; split
    · exact m10
    · split <;> exact m10
  · simp only [upsertProductSource]; split
    · exact m11
    · split <;> exact m11
  · simp only [upsertProductSource]; split
    · exact m6
    · split <;> exact m6
  · simp only [upsertProductSource]; split
    · exact m17
    · split <;> exact m17
  · simp only [upsertProductSource]; split
    · rfl
    · split <;> rfl
  · simp only [upsertProductSource]; split
    · rfl
    · split <;> rfl
  · simp only [upsertProductSource]; split
    · rfl
    · split <;> rfl
  · simp only [upsertProductSource]; split
    · rfl
    · split <;> rfl
  · simp only [upsertProductSource]; split
    · rfl
    · split <;> rfl

theorem extractGeoComponents_congr {r1 r2 : RecordM}
    (h1 : r1.raw_payload = r2.raw_payload) (h2 : r1.geo_raw = r2.geo_raw) :
    extractGeoComponents r1 = extractGeoComponents r2 := by
  unfold extractGeoComponents
  rw [h1, h2]

/-- When the record has no geo components, the iteration passes no
settlement id to `_upsert_product_row`. -/
theorem settOf_none (hash : Str → Str) (now : Int) (st : CatalogState)
    (r : RecordM) (hgeo : extractGeoComponents r = none) :
    settOf hash now st r = none := by
  have h : extractGeoComponents (upsertRecordMid hash now st r).2 = none :=
    (extractGeoComponents_congr
      (upsertRecordMid_fields hash now st r).2.2.2.2.2.2.2.2.2.2.2.2.2.2.2.2
      (upsertRecordMid_fields hash now st r).2.2.2.2.2.2.2.2.2.2.2.2.2.2.1).trans hgeo
  unfold settOf
  dsimp only
  unfold upsertSettlement
  rw [h]

/-- When the record has no category input, the iteration passes no
category links to `_upsert_product_row`. -/
theorem catsOf_none (hash : Str → Str) (now : Int) (st : CatalogState)
    (r : RecordM) (hcat : safeStr r.category_raw = none) :
    catsOf hash now st r = [] := by
  have h : categoryCandidates (upsertRecordMid hash now st r).2 = [] := by
    unfold categoryCandidates
    rw [(upsertRecordMid_fields hash now st r).2.2.2.2.2.2.2.2.2.2.2.2.2.1, hcat]
  unfold catsOf
  dsimp only
  unfold upsertCategories
  rw [h]
  rfl

/-- A record with no image URLs still has none after the mid stage. -/
theorem midImages_empty (hash : Str → Str) (now : Int) (st : CatalogState)
    (r : RecordM) (himg : r.image_urls = []) :
    (upsertRecordMid hash now st r).2.image_urls = [] := by
  unfold upsertRecordMid
  dsimp only
  rw [(applyBackfill_core _ _).2.2.2.2.2.2.1]
  unfold applyImageDedup
  dsimp only
  rw [himg]
  rfl

/-! ### Identity-map bindings (C1). -/

theorem idLookup_append (m1 m2 : List IdRow) (p t v : Str) :
    idLookup (m1 ++ m2) p t v = (idLookup m1 p t v).or (idLookup m2 p t v) := by
  unfold idLookup
  rw [List.find?_append]

/-- A refresh of a different key leaves a lookup unchanged. -/
theorem idLookup_map_refresh (p t v p2 t2 v2 c : Str) (now : Int)
    (hne : ¬(p = p2 ∧ t = t2 ∧ v = v2)) :
    ∀ m : List IdRow,
      idLookup (m.map fun row =>
        if decide (row.parser_name = p2 ∧ row.identity_type = t2 ∧
            row.identity_value = v2) then
          { row with canonical_product_id := c, updated_at := now }
        else row) p t v = idLookup m p t v
  | [] => rfl
  | a :: l => by
    unfold idLookup
    rw [List.map_cons]
    by_cases ha : a.parser_name = p ∧ a.identity_type = t ∧ a.identity_value = v
    · have ha2 : ¬(a.parser_name = p2 ∧ a.identity_type = t2 ∧
          a.identity_value = v2) := fun hcon =>
        hne ⟨ha.1.symm.trans hcon.1, ha.2.1.symm.trans hcon.2.1,
          ha.2.2.symm.trans hcon.2.2⟩
      rw [if_neg (by simpa using ha2)]
      rw [List.find?_cons_of_pos _ (by simpa using ha)]
      rw [List.find?_cons_of_pos _ (by simpa using ha)]
    · by_cases ha2 : a.parser_name = p2 ∧ a.identity_type = t2 ∧
          a.identity_value = v2
      · rw [if_pos (by simpa using ha2)]
        rw [List.find?_cons_of_neg _ (by simpa using ha)]
        rw [List.find?_cons_of_neg _ (by simpa using ha)]
        exact idLookup_map_refresh p t v p2 t2 v2 c now hne l
      · rw [if_neg (by simpa using ha2)]
        rw [List.find?_cons_of_neg _ (by simpa using ha)]
        rw [List.find?_cons_of_neg _ (by simpa using ha)]
        exact idLookup_map_refresh p t v p2 t2 v2 c now hne l

/-- A refresh of the looked-up key replaces the row by its refreshed form. -/
theorem idLookup_map_self (p t v c : Str) (now : Int) :
    ∀ (m : List IdRow) (r0 : IdRow), idLookup m p t v = some r0 →
      idLookup (m.map fun row =>
        if decide (row.parser_name = p ∧ row.identity_type = t ∧
            row.identity_value = v) then
          { row with canonical_product_id := c, updated_at := now }
        else row) p t v =
        some { r0 with canonical_product_id := c, updated_at := now }
  | [], r0 => by intro h; simp [idLookup] at h
  | a :: l, r0 => by
    intro h
    unfold idLookup at h ⊢
    rw [List.map_cons]
    by_cases ha : a.parser_name = p ∧ a.identity_type = t ∧ a.identity_value = v
    · rw [List.find?_cons_of_pos _ (by simpa using ha)] at h
      cases h
      rw [if_pos (by simpa using ha)]
      rw [List.find?_cons_of_pos _ (by simpa using ha)]
    · rw [List.find?_cons_of_neg _ (by simpa using ha)] at h
      rw [if_neg (by simpa using ha)]
      rw [List.find?_cons_of_neg _ (by simpa using ha)]
      exact idLookup_map_self p t v c now l r0 h

/-- `idWrite` of a different key leaves a lookup unchanged. -/
theorem idWrite_lookup_ne (m : List IdRow) (p t v p2 t2 v2 c : Str) (now : Int)
    (hne : ¬(p = p2 ∧ t = t2 ∧ v = v2)) :
    idLookup (idWrite m p2 t2 v2 c now) p t v = idLookup m p t v := by
  unfold idWrite
  split
  · exact idLookup_map_refresh p t v p2 t2 v2 c now hne m
  · rw [idLookup_append]
    cases hl : idLookup m p t v with
    | none =>
      rw [Option.none_or]
      unfold idLookup
      rw [List.find?_cons_of_neg _ (by
        simp only [decide_eq_true_eq]
        exact fun hcon => hne ⟨hcon.1.symm, hcon.2.1.symm, hcon.2.2.symm⟩)]
      rfl
    | some r0 => rfl

/-- After `idWrite`, the written key holds the written canonical id. -/
theorem idWrite_lookup_self (m : List IdRow) (p t v c : Str) (now : Int) :
    ∃ row, idLookup (idWrite m p t v c now) p t v = some row ∧
      row.canonical_product_id = c := by
  unfold idWrite
  split
  · rename_i hsome
    obtain ⟨r0, hr0⟩ := Option.isSome_iff_exists.mp hsome
    exact ⟨{ r0 with canonical_product_id := c, updated_at := now },
      idLookup_map_self p t v c now m r0 hr0, rfl⟩
  · rename_i hnone
    refine ⟨⟨p, t, v, c, now⟩, ?_, rfl⟩
    have hn : idLookup m p t v = none :=
      Option.not_isSome_iff_eq_none.mp (by simpa using hnone)
    rw [idLookup_append, hn, Option.none_or]
    unfold idLookup
    rw [List.find?_cons_of_pos _ (by simp)]

/-- A fold of `idWrite`s keeps a binding's canonical id, as long as every
write that touches the binding's key writes that same id. -/
theorem idFold_binding_stable (p P v p2 c : Str) (now : Int) :
    ∀ (l : List (Str × Str)) (m : List IdRow),
      (∀ tv ∈ l, p2 = p ∧ tv.1 = "plu".toList ∧ tv.2 = P → c = v) →
      (∃ row, idLookup m p "plu".toList P = some row ∧
        row.canonical_product_id = v) →
      ∃ row, idLookup (l.foldl (fun m tv => idWrite m p2 tv.1 tv.2 c now) m)
          p "plu".toList P = some row ∧ row.canonical_product_id = v
  | [], _ => fun _ hb => hb
  | tv :: l, m => by
    intro hsafe hb
    rw [List.foldl_cons]
    refine idFold_binding_stable p P v p2 c now l _
      (fun tv2 h2 => hsafe tv2 (List.mem_cons_of_mem _ h2)) ?_
    by_cases hcol : p = p2 ∧ "plu".toList = tv.1 ∧ P = tv.2
    · have hcv : c = v :=
        hsafe tv (List.mem_cons_self _ _)
          ⟨hcol.1.symm, hcol.2.1.symm, hcol.2.2.symm⟩
      obtain ⟨row, hrow, hcanon⟩ := idWrite_lookup_self m p2 tv.1 tv.2 c now
      refine ⟨row, ?_, hcanon.trans hcv⟩
      rw [hcol.1, hcol.2.1, hcol.2.2]
      exact hrow
    · obtain ⟨row, hrow, hcanon⟩ := hb
      exact ⟨row, by
        rw [idWrite_lookup_ne m p "plu".toList P p2 tv.1 tv.2 c now hcol]
        exact hrow, hcanon⟩

/-- A fold of `idWrite`s that contains the `plu` key establishes the binding
with the written canonical id. -/
theorem idFold_binding_mem (p P c : Str) (now : Int) :
    ∀ (l : List (Str × Str)) (m : List IdRow),
      ("plu".toList, P) ∈ l →
      ∃ row, idLookup (l.foldl (fun m tv => idWrite m p tv.1 tv.2 c now) m)
          p "plu".toList P = some row ∧ row.canonical_product_id = c
  | [], m => by intro h; simp at h
  | tv :: l, m => by
    intro hmem
    rw [List.foldl_cons]
    rcases List.mem_cons.mp hmem with heq | hmem2
    · subst heq
      exact idFold_binding_stable p P c p c now l _ (fun _ _ _ => rfl)
        (idWrite_lookup_self m p "plu".toList P c now)
    · exact idFold_binding_mem p P c now l _ hmem2

theorem dedupFirstAux_subset {α : Type} [DecidableEq α] :
    ∀ (seen l : List α) (a : α), a ∈ dedupFirstAux seen l → a ∈ l
  | _, [], _ => by intro h; simp [dedupFirstAux] at h
  | seen, b :: l, a => by
    intro h
    unfold dedupFirstAux at h
    split at h
    · exact List.mem_cons_of_mem _ (dedupFirstAux_subset seen l a h)
    · rcases List.mem_cons.mp h with heq | h2
      · exact heq ▸ List.mem_cons_self _ _
      · exact List.mem_cons_of_mem _ (dedupFirstAux_subset (b :: seen) l a h2)

theorem dedupFirst_subset {α : Type} [DecidableEq α] (l : List α) (a : α)
    (h : a ∈ dedupFirst l) : a ∈ l :=
  dedupFirstAux_subset [] l a h

theorem dedupFirstAux_mem {α : Type} [DecidableEq α] :
    ∀ (seen l : List α) (a : α), a ∈ l → a ∈ seen ∨ a ∈ dedupFirstAux seen l
  | _, [], _ => by intro h; simp at h
  | seen, b :: l, a => by
    intro h
    unfold dedupFirstAux
    rcases List.mem_cons.mp h with heq | h2
    · subst heq
      split
      · rename_i hin
        exact Or.inl hin
      · exact Or.inr (List.mem_cons_self _ _)
    · split
      · exact dedupFirstAux_mem seen l a h2
      · rcases dedupFirstAux_mem (b :: seen) l a h2 with hs | hd
        · rcases List.mem_cons.mp hs with h3 | h4
          · exact Or.inr (h3 ▸ List.mem_cons_self _ _)
          · exact Or.inl h4
        · exact Or.inr (List.mem_cons_of_mem _ hd)

theorem dedupFirst_mem {α : Type} [DecidableEq α] (l : List α) (a : α)
    (h : a ∈ l) : a ∈ dedupFirst l := by
  rcases dedupFirstAux_mem [] l a h with hs | hd
  · simp at hs
  · exact hd

theorem mem_pick {n : String} {v : Option Str} {tv : Str × Str}
    (h : tv ∈ (match safeStr v with
      | some t => [(n.toList, t)]
      | none => ([] : List (Str × Str)))) :
    tv.1 = n.toList ∧ safeStr v = some tv.2 := by
  rcases hv : safeStr v with _ | t <;> rw [hv] at h
  · simp at h
  · rw [List.mem_singleton] at h
    rw [h]
    exact ⟨rfl, rfl⟩

/-- Every identity candidate is the stripped `plu`, `sku` or `source_id`
of the record, tagged with its type. -/
theorem mem_candidates (q : RecordM) (tv : Str × Str)
    (h : tv ∈ identityCandidates q) :
    (tv.1 = "plu".toList ∧ safeStr q.plu = some tv.2) ∨
    (tv.1 = "sku".toList ∧ safeStr q.sku = some tv.2) ∨
    (tv.1 = "source_id".toList ∧ safeStr q.source_id = some tv.2) := by
  unfold identityCandidates at h
  dsimp only at h
  rcases List.mem_append.mp h with h1 | h2
  · rcases List.mem_append.mp h1 with ha | hb
    · exact Or.inl (mem_pick ha)
    · exact Or.inr (Or.inl (mem_pick hb))
  · exact Or.inr (Or.inr (mem_pick h2))

theorem mem_candidates_plu (q : RecordM) (tv : Str × Str)
    (hmem : tv ∈ identityCandidates q) (hty : tv.1 = "plu".toList) :
    safeStr q.plu = some tv.2 := by
  rcases mem_candidates q tv hmem with ⟨_, h⟩ | ⟨h1, _⟩ | ⟨h1, _⟩
  · exact h
  · exact absurd (hty.symm.trans h1) (by decide)
  · exact absurd (hty.symm.trans h1) (by decide)

/-- A probe of a key whose row holds a non-blank canonical id returns it. -/
theorem probeId_hit (m : List IdRow) (p : Str) (tv : Str × Str) (row0 : IdRow)
    (hb : idLookup m p tv.1 tv.2 = some row0)
    (hnb : (safeStr (some row0.canonical_product_id)).isSome = true) :
    probeId m p tv = some row0.canonical_product_id := by
  unfold probeId
  rw [hb]
  exact if_pos hnb

/-- With a non-blank `plu` binding present, the candidate scan stops at the
`plu` probe (`plu` is the first candidate). -/
theorem chosen0_plu_hit (st : CatalogState) (q : RecordM) (p P : Str)
    (row0 : IdRow)
    (hplu : safeStr q.plu = some P)
    (hb : idLookup st.identity_map p "plu".toList P = some row0)
    (hnb : (safeStr (some row0.canonical_product_id)).isSome = true) :
    (identityCandidates q).findSome? (probeId st.identity_map p) =
      some row0.canonical_product_id := by
  have hkeys : identityCandidates q =
      ("plu".toList, P) ::
        ((match safeStr q.sku with
          | some t => [("sku".toList, t)]
          | none => ([] : List (Str × Str))) ++
         (match safeStr q.source_id with
          | some t => [("source_id".toList, t)]
          | none => ([] : List (Str × Str)))) := by
    unfold identityCandidates
    dsimp only
    rw [hplu]
    rfl
  rw [hkeys, List.findSome?_cons,
    probeId_hit st.identity_map p ("plu".toList, P) row0 hb hnb]

/-- `_resolve_canonical_product_id` resolves a record with a bound,
non-blank `plu` to the binding's canonical id. -/
theorem resolve_chosen_plu (st : CatalogState) (q : RecordM) (now : Int)
    (p P : Str) (row0 : IdRow)
    (hpar : lowerStr (pyStrip q.parser_name) = p)
    (hplu : safeStr q.plu = some P)
    (hb : idLookup st.identity_map p "plu".toList P = some row0)
    (hnb : (safeStr (some row0.canonical_product_id)).isSome = true) :
    (resolveCanonical st q now).1 = row0.canonical_product_id := by
  unfold resolveCanonical
  dsimp only
  rw [hpar, chosen0_plu_hit st q p P row0 hplu hb hnb]

/-- After resolving a record with a non-blank `plu`, the `plu` binding
holds the chosen canonical id. -/
theorem resolve_binding_after (st : CatalogState) (q : RecordM) (now : Int)
    (p P : Str)
    (hpar : lowerStr (pyStrip q.parser_name) = p)
    (hplu : safeStr q.plu = some P) :
    ∃ row, idLookup (resolveCanonical st q now).2.identity_map p "plu".toList P =
      some row ∧ row.canonical_product_id = (resolveCanonical st q now).1 := by
  unfold resolveCanonical
  dsimp only
  rw [hpar]
  refine idFold_binding_mem p P _ now _ st.identity_map ?_
  refine dedupFirst_mem _ _ ?_
  refine List.mem_append_left _ ?_
  unfold identityCandidates
  dsimp only
  rw [hplu]
  exact List.mem_append_left _ (List.mem_append_left _ (List.mem_cons_self _ _))

/-- Resolving any record never rebinds an existing non-blank `plu` binding
to a different id: a record with the same `plu` first probes that binding
and adopts its id before refreshing it. -/
theorem resolve_binding_stable (st : CatalogState) (q : RecordM) (now : Int)
    (p P v : Str)
    (hv : (safeStr (some v)).isSome = true)
    (hb : ∃ row, idLookup st.identity_map p "plu".toList P = some row ∧
      row.canonical_product_id = v) :
    ∃ row, idLookup (resolveCanonical st q now).2.identity_map p "plu".toList P =
      some row ∧ row.canonical_product_id = v := by
  obtain ⟨row0, hrow0, hc0⟩ := hb
  unfold resolveCanonical
  dsimp only
  by_cases hcase : lowerStr (pyStrip q.parser_name) = p ∧ safeStr q.plu = some P
  · have hch : (identityCandidates q).findSome?
        (probeId st.identity_map (lowerStr (pyStrip q.parser_name))) =
        some row0.canonical_product_id := by
      rw [hcase.1]
      exact chosen0_plu_hit st q p P row0 hcase.2 hrow0 (by rw [hc0]; exact hv)
    rw [hch]
    exact idFold_binding_stable p P v _ _ now _ st.identity_map
      (fun _ _ _ => hc0) ⟨row0, hrow0, hc0⟩
  · refine idFold_binding_stable p P v _ _ now _ st.identity_map ?_
      ⟨row0, hrow0, hc0⟩
    intro tv hmem hcol
    exfalso
    apply hcase
    refine ⟨hcol.1, ?_⟩
    have hmem2 := dedupFirst_subset _ _ hmem
    rcases List.mem_append.mp hmem2 with hk | hf
    · have hq := mem_candidates_plu q tv hk hcol.2.1
      rw [hcol.2.2] at hq
      exact hq
    · rcases hfb : fallbackIdentityValue q with _ | fv <;> rw [hfb] at hf
      · simp at hf
      · rw [List.mem_singleton] at hf
        rw [hf] at hcol
        have hbad : ("normalized_name".toList : Str) = "plu".toList := hcol.2.1
        exact absurd hbad (by decide)

/-- The identity map after one `upsert_many` iteration is the one the
resolution step leaves (no later step touches it). -/
theorem upsertOne_identity (hash : Str → Str) (now : Int) (st : CatalogState)
    (r : RecordM) :
    (upsertOne hash now st r).1.identity_map =
      (resolveCanonical st r now).2.identity_map := by
  unfold upsertOne upsertRecordMid
  dsimp only
  rw [prodrow_identity, source_identity, cats_identity, insert_identity,
    settle_identity, dedup_identity]

theorem upsertOne_binding_after (hash : Str → Str) (now : Int)
    (st : CatalogState) (r : RecordM) (p P : Str)
    (hpar : lowerStr (pyStrip r.parser_name) = p)
    (hplu : safeStr r.plu = some P) :
    ∃ row, idLookup (upsertOne hash now st r).1.identity_map p "plu".toList P =
      some row ∧ row.canonical_product_id = (resolveCanonical st r now).1 := by
  rw [upsertOne_identity]
  exact resolve_binding_after st r now p P hpar hplu

theorem upsertOne_binding_stable (hash : Str → Str) (now : Int)
    (st : CatalogState) (q : RecordM) (p P v : Str)
    (hv : (safeStr (some v)).isSome = true)
    (hb : ∃ row, idLookup st.identity_map p "plu".toList P = some row ∧
      row.canonical_product_id = v) :
    ∃ row, idLookup (upsertOne hash now st q).1.identity_map p "plu".toList P =
      some row ∧ row.canonical_product_id = v := by
  rw [upsertOne_identity]
  exact resolve_binding_stable st q now p P v hv hb

theorem upsertMany_binding_stable (hash : Str → Str) (now : Int) (p P v : Str)
    (hv : (safeStr (some v)).isSome = true) :
    ∀ (rs : List RecordM) (st : CatalogState),
      (∃ row, idLookup st.identity_map p "plu".toList P = some row ∧
        row.canonical_product_id = v) →
      ∃ row, idLookup (upsertMany hash now st rs).1.identity_map p "plu".toList P =
        some row ∧ row.canonical_product_id = v
  | [], st => fun h => by
    simp only [upsertMany]
    exact h
  | q :: rs, st => fun h => by
    rw [upsertMany_cons]
    exact upsertMany_binding_stable hash now p P v hv rs _
      (upsertOne_binding_stable hash now st q p P v hv h)

/-- The record one `upsert_many` iteration hands back carries the resolved
canonical id, unless `_upsert_product_source` adopts a different non-blank
id from an existing source row; the hypothesis rules that out. -/
theorem upsertOne_record_canonical (hash : Str → Str) (now : Int)
    (st : CatalogState) (r : RecordM)
    (h : ∀ srow, srcLookup st.sources (lowerStr (pyStrip r.parser_name))
        (sourceIdOf (upsertRecordMid hash now st r).2) = some srow →
      (safeStr (some srow.canonical_product_id)).isSome = true →
      srow.canonical_product_id = (resolveCanonical st r now).1) :
    (upsertOne hash now st r).2.canonical_product_id =
      some (resolveCanonical st r now).1 := by
  have hcan := (upsertRecordMid_fields hash now st r).2.2.2.2.1
  have hp2 : lowerStr (pyStrip (upsertRecordMid hash now st r).2.parser_name) =
      lowerStr (pyStrip r.parser_name) := by
    rw [(upsertRecordMid_fields hash now st r).1]
  unfold upsertOne
  dsimp only
  simp only [upsertProductSource]
  rw [cats_sources, insert_sources, settle_sources,
    (upsertRecordMid_fingerprints_frame hash now st r).2.1, hp2]
  split
  · exact hcan
  · rename_i srow heq
    split
    · rename_i hc
      exact congrArg some (h srow heq hc)
    · exact hcan

end Catalog

end Conv

namespace Conv

open Daemon

/-- **C8.** Two `enqueue` calls whose jobs share a dedupe key, the first job
still pending at the second call: the first call is accepted with reason
`accepted`, the second is rejected as a duplicate with reason `duplicate`,
`total_duplicates` grows by one, and the queue holds exactly one job. -/
theorem claim_C8_queue_dedupe (st : DaemonState) (j1 j2 : QueueJob)
    (hkey : dedupeKey j1 = dedupeKey j2)
    (hpend : dedupeKey j1 ∉ st.pending)
    (hact : dedupeKey j1 ∉ st.active)
    (hempty : st.queue = [])
    (hcap : 0 < st.maxSize) :
    (enqueue st j1).2.accepted = true ∧
    (enqueue st j1).2.reason = "accepted".toList ∧
    (enqueue (enqueue st j1).1 j2).2.accepted = false ∧
    (enqueue (enqueue st j1).1 j2).2.duplicate = true ∧
    (enqueue (enqueue st j1).1 j2).2.reason = "duplicate".toList ∧
    (enqueue (enqueue st j1).1 j2).1.totalDuplicates = st.totalDuplicates + 1 ∧
    (enqueue (enqueue st j1).1 j2).1.queue.length = 1 := by
  have hroom : st.queue.length < st.maxSize := by
    simp [hempty]; exact hcap
  have hfirst :
      enqueue st j1 =
        ( { st with
              pending := dedupeKey j1 :: st.pending
              queue := st.queue ++ [j1]
              totalEnqueued := st.totalEnqueued + 1 }
        , ⟨true, false, "accepted".toList, st.queue.length + 1, dedupeKey j1⟩ ) := by
    simp [enqueue, hpend, hact, hroom]
  have hm2 : dedupeKey j2 ∈ dedupeKey j1 :: st.pending := by
    rw [← hkey]; exact List.mem_cons_self _ _
  rw [hfirst]
  refine ⟨rfl, rfl, ?_, ?_, ?_, ?_, ?_⟩ <;>
    simp [enqueue, hm2, hempty]

/-- Witness for C8 at a fresh daemon and a concrete job. -/
theorem claim_C8_queue_dedupe_witness :
    (enqueue (initialDaemon 100) ⟨"r.db".toList, "c.db".toList, "fixprice".toList, 250, 0, none, "receiver".toList⟩).2.accepted = true ∧
    (enqueue (initialDaemon 100) ⟨"r.db".toList, "c.db".toList, "fixprice".toList, 250, 0, none, "receiver".toList⟩).2.reason = "accepted".toList ∧
    (enqueue (enqueue (initialDaemon 100) ⟨"r.db".toList, "c.db".toList, "fixprice".toList, 250, 0, none, "receiver".toList⟩).1
      ⟨"r.db".toList, "c.db".toList, "FixPrice".toList, 500, 2, none, "receiver".toList⟩).2.accepted = false ∧
    (enqueue (enqueue (initialDaemon 100) ⟨"r.db".toList, "c.db".toList, "fixprice".toList, 250, 0, none, "receiver".toList⟩).1
      ⟨"r.db".toList, "c.db".toList, "FixPrice".toList, 500, 2, none, "receiver".toList⟩).2.duplicate = true ∧
    (enqueue (enqueue (initialDaemon 100) ⟨"r.db".toList, "c.db".toList, "fixprice".toList, 250, 0, none, "receiver".toList⟩).1
      ⟨"r.db".toList, "c.db".toList, "FixPrice".toList, 500, 2, none, "receiver".toList⟩).2.reason = "duplicate".toList ∧
    (enqueue (enqueue (initialDaemon 100) ⟨"r.db".toList, "c.db".toList, "fixprice".toList, 250, 0, none, "receiver".toList⟩).1
      ⟨"r.db".toList, "c.db".toList, "FixPrice".toList, 500, 2, none, "receiver".toList⟩).1.totalDuplicates = (initialDaemon 100).totalDuplicates + 1 ∧
    (enqueue (enqueue (initialDaemon 100) ⟨"r.db".toList, "c.db".toList, "fixprice".toList, 250, 0, none, "receiver".toList⟩).1
      ⟨"r.db".toList, "c.db".toList, "FixPrice".toList, 500, 2, none, "receiver".toList⟩).1.queue.length = 1 :=
  claim_C8_queue_dedupe (initialDaemon 100)
    ⟨"r.db".toList, "c.db".toList, "fixprice".toList, 250, 0, none, "receiver".toList⟩
    ⟨"r.db".toList, "c.db".toList, "FixPrice".toList, 500, 2, none, "receiver".toList⟩
    (by decide) (by decide) (by decide) (by decide) (by decide)

open Storage

/-- **C9.** `delete_images` issues at most one DELETE per derived image
name (the issued list has no duplicates); every issued name is derived
from an input URL; a name is derived only from a URL whose origin equals
the configured base origin or whose path-only form starts with an accepted
image prefix; and no issued name is empty or contains `/`, `\` or `..`
after URL-decoding. -/
theorem claim_C9_delete_image_safety (cfg : StorageCfg) (urls : List Bytes) :
    (deleteImages cfg urls).Nodup ∧
    (∀ n ∈ deleteImages cfg urls, ∃ u ∈ urls, imageNameFromUrl cfg u = some n) ∧
    (∀ u ∈ urls, ∀ n, imageNameFromUrl cfg u = some n →
      originMatches cfg u ∨ relAllowed u) ∧
    (∀ n ∈ deleteImages cfg urls,
      n ≠ [] ∧ n.contains 47 = false ∧ n.contains 92 = false ∧
        ¬ (bstr ".." <:+: n)) := by
  obtain ⟨hnd, hderiv⟩ := extractUniqueAux_spec cfg urls []
  refine ⟨hnd, ?_, ?_, ?_⟩
  · intro n hn
    exact (hderiv n hn).2
  · intro u _ n hf
    exact (imageNameFromUrl_some hf).2
  · intro n hn
    obtain ⟨_, u, _, hf⟩ := hderiv n hn
    obtain ⟨⟨nm0, hfin⟩, _⟩ := imageNameFromUrl_some hf
    exact finishName_some hfin

/-- Witness for C9 on a concrete base origin and URL list: one absolute
URL on the right origin, one path-only URL decoding to the same name, one
foreign-origin URL and one traversal attempt. -/
theorem claim_C9_delete_image_safety_witness :
    (deleteImages ⟨bstr "https://img.example"⟩
        [ bstr "https://img.example/api/images/a%20b.png"
        , bstr "/images/a%20b.png"
        , bstr "https://other.example/api/images/c.png"
        , bstr "images/../../etc" ]).Nodup ∧
    (∃ u ∈ [ bstr "https://img.example/api/images/a%20b.png"
           , bstr "/images/a%20b.png"
           , bstr "https://other.example/api/images/c.png"
           , bstr "images/../../etc" ],
        imageNameFromUrl ⟨bstr "https://img.example"⟩ u = some (bstr "a b.png")) ∧
    (originMatches ⟨bstr "https://img.example"⟩
        (bstr "https://img.example/api/images/a%20b.png") ∨
      relAllowed (bstr "https://img.example/api/images/a%20b.png")) ∧
    (bstr "a b.png" ≠ [] ∧ (bstr "a b.png").contains 47 = false ∧
      (bstr "a b.png").contains 92 = false ∧
      ¬ (bstr ".." <:+: bstr "a b.png")) := by
  have h := claim_C9_delete_image_safety ⟨bstr "https://img.example"⟩
    [ bstr "https://img.example/api/images/a%20b.png"
    , bstr "/images/a%20b.png"
    , bstr "https://other.example/api/images/c.png"
    , bstr "images/../../etc" ]
  refine ⟨h.1, h.2.1 (bstr "a b.png") (by decide),
    h.2.2.1 (bstr "https://img.example/api/images/a%20b.png") (by decide)
      (bstr "a b.png") (by decide),
    h.2.2.2 (bstr "a b.png") (by decide)⟩

open Fixprice

/-- **C7, counterexample.** The claim says the package pair comes from the
*last* weight/volume token.  On the title `Сок 500 мл 2 л` — no assortment
phrase, no by-weight / by-volume idiom, two tokens — the last token is
`2 л` (2 LTR), but `_extract_package` uses `WVL_RE.search`, the *first*
match `500 мл`, so the parser returns (1/2, LTR), not (2, LTR). -/
theorem claim_C7_counterexample :
    byWeight (titleWithoutAssort "Сок 500 мл 2 л".toList) = false ∧
    byVolume (titleWithoutAssort "Сок 500 мл 2 л".toList) = false ∧
    (wvlAll (titleWithoutAssort "Сок 500 мл 2 л".toList)).getLast? =
      some ⟨"2".toList, [], "л".toList⟩ ∧
    convert ⟨"2".toList, [], "л".toList⟩ = (some 2, some "LTR".toList) ∧
    fixpricePackage "Сок 500 мл 2 л".toList ≠ (some 2, some "LTR".toList) ∧
    fixpricePackage "Сок 500 мл 2 л".toList =
      (some (1 / 2 : ℚ), some "LTR".toList) := by
  have h500 : natOfDigits ['5', '0', '0'] = 500 := by decide
  have h2 : natOfDigits ['2'] = 2 := by decide
  have h0 : natOfDigits [] = 0 := by decide
  have hconv2 : convert ⟨"2".toList, [], "л".toList⟩ = (some 2, some "LTR".toList) := by
    unfold convert
    rw [if_neg (by decide), if_neg (by decide), if_neg (by decide), if_pos (by decide)]
    norm_num [qOf, h2, h0]
  have hconv500 :
      convert ⟨"500".toList, [], "мл".toList⟩ = (some (1 / 2 : ℚ), some "LTR".toList) := by
    unfold convert
    rw [if_neg (by decide), if_neg (by decide), if_pos (by decide)]
    norm_num [qOf, h500, h0]
  have hsearch : wvlSearch (titleWithoutAssort "Сок 500 мл 2 л".toList) =
      some (⟨"500".toList, [], "мл".toList⟩, " 2 л".toList) := by decide
  have hpkg : fixpricePackage "Сок 500 мл 2 л".toList =
      convert ⟨"500".toList, [], "мл".toList⟩ := by
    simp only [fixpricePackage, extractPackage, hsearch,
      show byWeight (titleWithoutAssort "Сок 500 мл 2 л".toList) = false from by decide,
      show byVolume (titleWithoutAssort "Сок 500 мл 2 л".toList) = false from by decide,
      Bool.false_eq_true, if_false]
  refine ⟨by decide, by decide, by decide, hconv2, ?_, ?_⟩
  · rw [hpkg, hconv500]
    intro hc
    have := congrArg Prod.fst hc
    simp only [Option.some.injEq] at this
    norm_num at this
  · rw [hpkg, hconv500]

/-- **C7, amended.** For every fixprice title that, after stripping the
`в ассортименте` phrase, contains at least one weight/volume token and no
by-weight / by-volume idiom, `normalize_title` returns the package pair of
the **first** such match (`WVL_RE.search`), converted as `г → q/1000 KGM`,
`кг → q KGM`, `мл → q/1000 LTR`, `л|l → q LTR`. -/
theorem claim_C7_package_first_match (title : Str)
    (hw : byWeight (titleWithoutAssort title) = false)
    (hv : byVolume (titleWithoutAssort title) = false)
    (m : WvlMatch)
    (hm : (wvlAll (titleWithoutAssort title)).head? = some m) :
    fixpricePackage title = convert m := by
  have hs := wvlAll_headq (titleWithoutAssort title)
  rw [hm] at hs
  cases hsr : wvlSearch (titleWithoutAssort title) with
  | none => rw [hsr] at hs; cases hs
  | some r =>
    obtain ⟨m1, rest⟩ := r
    rw [hsr] at hs
    have hm1 : m1 = m := by
      simpa using hs.symm
    subst hm1
    simp [fixpricePackage, hw, hv, extractPackage, hsr]

/-- Witness for the amended C7 at the two-token title: the first token
`500 мл` wins. -/
theorem claim_C7_package_first_match_witness :
    byWeight (titleWithoutAssort "Сок 500 мл 2 л".toList) = false ∧
    byVolume (titleWithoutAssort "Сок 500 мл 2 л".toList) = false ∧
    (wvlAll (titleWithoutAssort "Сок 500 мл 2 л".toList)).head? =
      some ⟨"500".toList, [], "мл".toList⟩ ∧
    fixpricePackage "Сок 500 мл 2 л".toList =
      convert ⟨"500".toList, [], "мл".toList⟩ :=
  ⟨by decide, by decide, by decide,
    claim_C7_package_first_match "Сок 500 мл 2 л".toList (by decide) (by decide)
      ⟨"500".toList, [], "мл".toList⟩ (by decide)⟩

open Catalog

/-- A plain normalized record used to instantiate witnesses. -/
def baseRec : RecordM :=
  { parser_name := "fixprice".toList
    source_id := none
    plu := none
    sku := none
    canonical_product_id := none
    raw_title := "T".toList
    title_original := "T".toList
    title_normalized := "t".toList
    title_original_no_stopwords := "T".toList
    title_normalized_no_stopwords := "t".toList
    brand := none
    unit := "PCE".toList
    available_count := none
    package_quantity := none
    package_unit := none
    category_raw := none
    category_normalized := none
    geo_raw := none
    geo_normalized := none
    composition_raw := none
    composition_normalized := none
    image_urls := []
    duplicate_image_urls := []
    image_fingerprints := []
    observed_at := 0
    raw_payload := [] }

theorem find_replace_eq {β : Type} (l : List (Str × β)) (key : Str) (payload : β)
    (h : (l.find? fun kv => decide (kv.1 = key)).isSome) :
    ((l.map fun kv => if decide (kv.1 = key) then (kv.1, payload) else kv).find?
        fun kv => decide (kv.1 = key)) = some (key, payload) := by
  induction l with
  | nil => simp at h
  | cons kv rest ih =>
    by_cases hk : kv.1 = key
    · simp only [List.map_cons, hk]
      rw [if_pos (by simp)]
      rw [List.find?_cons_of_pos _ (by simp)]
    · simp only [List.map_cons]
      rw [if_neg (by simpa using hk)]
      rw [List.find?_cons_of_neg _ (by simpa using hk)]
      apply ih
      rw [List.find?_cons_of_neg _ (by simpa using hk)] at h
      exact h

/-- **C10.** Setting the receiver cursor for a parser and reading it back
on the same catalog returns exactly the written `(ingested_at, product_id)`
pair, for every parser name, non-empty trimmed timestamp and `n ≥ 0`. -/
theorem claim_C10_cursor_roundtrip (st : CatalogState) (parser t : Str)
    (n : Int) (now : Int)
    (htrim : pyStrip t = t) (hne : t ≠ []) (_hnonneg : 0 ≤ n) :
    getReceiverCursor (setReceiverCursor st parser t n now) parser =
      (some t, some n) := by
  have hsafe : safeStr (some t) = some t := by
    simp [safeStr, htrim, hne]
  unfold setReceiverCursor getReceiverCursor
  by_cases h : (st.sync_state.find? fun kv => decide (kv.1 = cursorKey parser)).isSome
  · rw [if_pos h]
    rw [find_replace_eq st.sync_state (cursorKey parser) ⟨t, n⟩ h]
    simp [hsafe]
  · rw [if_neg h]
    have hnone : (st.sync_state.find? fun kv => decide (kv.1 = cursorKey parser)) = none := by
      cases hf : st.sync_state.find? fun kv => decide (kv.1 = cursorKey parser) with
      | none => rfl
      | some v => rw [hf] at h; simp at h
    simp only [List.find?_append, hnone, Option.none_or]
    rw [List.find?_cons_of_pos _ (by simp)]
    simp [hsafe]

/-- Witness for C10 at a concrete cursor write. -/
theorem claim_C10_cursor_roundtrip_witness :
    getReceiverCursor
        (setReceiverCursor emptyCatalog "FixPrice".toList
          "2024-01-01T00:00:00+00:00".toList 42 7)
        "FixPrice".toList =
      (some "2024-01-01T00:00:00+00:00".toList, some 42) :=
  claim_C10_cursor_roundtrip emptyCatalog "FixPrice".toList
    "2024-01-01T00:00:00+00:00".toList 42 7 (by decide) (by decide) (by decide)

/-- **C2, amended.** When the plu / sku / source_id candidates all miss,
identity resolution probes the identity map under `normalized_name`
exactly once, with the single fallback value `_fallback_identity_value`
(`title_normalized_no_stopwords` if non-blank, else `title_normalized`);
a fresh UUIDv4 is minted exactly when that single probe misses or no
fallback value exists.  A second probe with `title_normalized` does not
happen. -/
theorem claim_C2_fallback_single_probe (st : CatalogState) (r : RecordM) (now : Int)
    (hmiss : (identityCandidates r).findSome?
        (probeId st.identity_map (lowerStr (pyStrip r.parser_name))) = none) :
    (fallbackIdentityValue r = none →
      (resolveCanonical st r now).1 = mintId st.mint ∧
      (resolveCanonical st r now).2.mint = st.mint + 1) ∧
    (∀ fv c, fallbackIdentityValue r = some fv →
      probeId st.identity_map (lowerStr (pyStrip r.parser_name))
        ("normalized_name".toList, fv) = some c →
      (resolveCanonical st r now).1 = c ∧
      (resolveCanonical st r now).2.mint = st.mint) ∧
    (∀ fv, fallbackIdentityValue r = some fv →
      probeId st.identity_map (lowerStr (pyStrip r.parser_name))
        ("normalized_name".toList, fv) = none →
      (resolveCanonical st r now).1 = mintId st.mint ∧
      (resolveCanonical st r now).2.mint = st.mint + 1) := by
  refine ⟨?_, ?_, ?_⟩
  · intro hfb
    simp [resolveCanonical, hmiss, hfb]
  · intro fv c hfb hp
    have hp2 : probeId st.identity_map (lowerStr (pyStrip r.parser_name))
        (['n', 'o', 'r', 'm', 'a', 'l', 'i', 'z', 'e', 'd', '_', 'n', 'a', 'm', 'e'], fv) =
          some c := hp
    simp [resolveCanonical, hmiss, hfb, hp2]
  · intro fv hfb hp
    have hp2 : probeId st.identity_map (lowerStr (pyStrip r.parser_name))
        (['n', 'o', 'r', 'm', 'a', 'l', 'i', 'z', 'e', 'd', '_', 'n', 'a', 'm', 'e'], fv) =
          none := hp
    simp [resolveCanonical, hmiss, hfb, hp2]

/-- The identity map carries a binding for the full `title_normalized`
value but none for `title_normalized_no_stopwords`. -/
def c2state : CatalogState :=
  { emptyCatalog with
      identity_map :=
        [⟨"fixprice".toList, "normalized_name".toList,
          "milk chocolate".toList, "cid0".toList, 0⟩] }

/-- A record whose plu candidate misses, whose no-stopwords title is the
(missing) `milk` and whose full normalized title is the mapped
`milk chocolate`. -/
def c2rec : RecordM :=
  { baseRec with
      plu := some "9".toList
      title_normalized_no_stopwords := "milk".toList
      title_normalized := "milk chocolate".toList }

/-- **C2, counterexample.** The claim says that after the
`normalized_name / title_normalized_no_stopwords` probe misses, the code
probes `normalized_name / title_normalized`, and mints only if both miss.
Here that second probe would hit `cid0`, yet `_resolve_canonical_product_id`
mints a fresh id: the code consults a single fallback value
(`title_normalized_no_stopwords` when non-blank) and never falls through
to `title_normalized`. -/
theorem claim_C2_counterexample :
    (identityCandidates c2rec).findSome?
        (probeId c2state.identity_map (lowerStr (pyStrip c2rec.parser_name))) = none ∧
    probeId c2state.identity_map "fixprice".toList
        ("normalized_name".toList, "milk".toList) = none ∧
    probeId c2state.identity_map "fixprice".toList
        ("normalized_name".toList, "milk chocolate".toList) = some "cid0".toList ∧
    (resolveCanonical c2state c2rec 5).1 ≠ "cid0".toList ∧
    (resolveCanonical c2state c2rec 5).1 = mintId c2state.mint := by
  decide

/-- The identity map carries a binding for the no-stopwords fallback. -/
def c2wstate : CatalogState :=
  { emptyCatalog with
      identity_map :=
        [⟨"fixprice".toList, "normalized_name".toList,
          "milk".toList, "cid1".toList, 0⟩] }

/-- Witness for the amended C2: the single fallback probe hits and no id
is minted. -/
theorem claim_C2_fallback_single_probe_witness :
    (resolveCanonical c2wstate c2rec 5).1 = "cid1".toList ∧
    (resolveCanonical c2wstate c2rec 5).2.mint = c2wstate.mint :=
  (claim_C2_fallback_single_probe c2wstate c2rec 5 (by decide)).2.1
    "milk".toList "cid1".toList (by decide) (by decide)

/-- **C6.** `upsert_many` only ever appends to `catalog_product_snapshots`
(the old rows survive unchanged, in place), and N single-record calls for
one `(parser_name, source_id)` add exactly N snapshot rows for that key. -/
theorem claim_C6_snapshots_append_only :
    (∀ (hash : Str → Str) (now : Int) (st : CatalogState) (rs : List RecordM),
      ∃ t, (upsertMany hash now st rs).1.snapshots = st.snapshots ++ t) ∧
    (∀ (hash : Str → Str) (now : Int) (st : CatalogState) (rs : List RecordM)
        (p sid : Str),
      (∀ r ∈ rs, r.parser_name = p ∧ safeStr r.source_id = some sid) →
      snapCount (rs.foldl (fun s r => (upsertMany hash now s [r]).1) st) p sid =
        snapCount st p sid + rs.length) :=
  ⟨fun hash now st rs => upsertMany_append_only hash now rs st,
   fun hash now st rs p sid h => calls_snapCount hash now p sid rs st h⟩

/-! ### Back-fill correctness (C5). -/

/-- Full correctness of the `_closest_non_missing` fold: the result is the
value of a non-missing history item at minimal `|observed_at − target|`
(strict improvement only, so the earliest minimizer wins), or the carried
best. -/
theorem closestGo_correct (f : BackField) (t : Int) :
    ∀ (items : List HistItem) (best : Option (Val × Nat)),
      match closestGo f t items best with
      | none => best = none ∧ ∀ h ∈ items, isMissingV (getH h f) = true
      | some (v, d) =>
        ((∃ h ∈ items, isMissingV (getH h f) = false ∧ v = getH h f ∧
            d = (h.observed_at - t).natAbs) ∨ best = some (v, d)) ∧
        (∀ h ∈ items, isMissingV (getH h f) = false →
          d ≤ (h.observed_at - t).natAbs) ∧
        (∀ v0 d0, best = some (v0, d0) → d ≤ d0) := by
  intro items
  induction items with
  | nil =>
    intro best
    cases best with
    | none => exact ⟨rfl, fun h hh => absurd hh (List.not_mem_nil _)⟩
    | some b =>
      obtain ⟨v, d⟩ := b
      refine ⟨Or.inr rfl, fun h hh => absurd hh (List.not_mem_nil _), ?_⟩
      intro v0 d0 h0
      cases h0
      exact le_refl _
  | cons item rest ih =>
    intro best
    unfold closestGo
    by_cases hm : isMissingV (getH item f) = true
    · rw [if_pos hm]
      have hrec := ih best
      cases hres : closestGo f t rest best with
      | none =>
        rw [hres] at hrec
        refine ⟨hrec.1, ?_⟩
        intro h hh
        rcases List.mem_cons.mp hh with heq | hh2
        · rw [heq]; exact hm
        · exact hrec.2 h hh2
      | some b =>
        obtain ⟨v, d⟩ := b
        rw [hres] at hrec
        refine ⟨?_, ?_, hrec.2.2⟩
        · rcases hrec.1 with ⟨h, hh, hprop⟩ | hbest
          · exact Or.inl ⟨h, List.mem_cons_of_mem _ hh, hprop⟩
          · exact Or.inr hbest
        · intro h hh hnm
          rcases List.mem_cons.mp hh with heq | hh2
          · rw [heq] at hnm; rw [hnm] at hm; cases hm
          · exact hrec.2.1 h hh2 hnm
    · rw [if_neg hm]
      have hm2 : isMissingV (getH item f) = false := by
        cases hval : isMissingV (getH item f)
        · rfl
        · exact absurd hval hm
      cases best with
      | none =>
        dsimp only
        have hrec := ih (some (getH item f, (item.observed_at - t).natAbs))
        cases hres : closestGo f t rest (some (getH item f, (item.observed_at - t).natAbs)) with
        | none =>
          rw [hres] at hrec
          cases hrec.1
        | some b =>
          obtain ⟨v, d⟩ := b
          rw [hres] at hrec
          refine ⟨?_, ?_, ?_⟩
          · rcases hrec.1 with ⟨h, hh, hprop⟩ | hbest
            · exact Or.inl ⟨h, List.mem_cons_of_mem _ hh, hprop⟩
            · obtain ⟨hv, hd⟩ := Prod.mk.injEq _ _ _ _ ▸ Option.some.inj hbest
              exact Or.inl ⟨item, List.mem_cons_self _ _, hm2, hv.symm ▸ rfl, hd.symm ▸ rfl⟩
          · intro h hh hnm
            rcases List.mem_cons.mp hh with heq | hh2
            · rw [heq]
              exact hrec.2.2 _ _ rfl
            · exact hrec.2.1 h hh2 hnm
          · intro v0 d0 h0
            cases h0
      | some b =>
        obtain ⟨bv, bd⟩ := b
        dsimp only
        by_cases hlt : (item.observed_at - t).natAbs < bd
        · rw [if_pos hlt]
          have hrec := ih (some (getH item f, (item.observed_at - t).natAbs))
          cases hres : closestGo f t rest (some (getH item f, (item.observed_at - t).natAbs)) with
          | none =>
            rw [hres] at hrec
            cases hrec.1
          | some bb =>
            obtain ⟨v, d⟩ := bb
            rw [hres] at hrec
            refine ⟨?_, ?_, ?_⟩
            · rcases hrec.1 with ⟨h, hh, hprop⟩ | hbest
              · exact Or.inl ⟨h, List.mem_cons_of_mem _ hh, hprop⟩
              · obtain ⟨hv, hd⟩ := Prod.mk.injEq _ _ _ _ ▸ Option.some.inj hbest
                exact Or.inl ⟨item, List.mem_cons_self _ _, hm2, hv.symm ▸ rfl, hd.symm ▸ rfl⟩
            · intro h hh hnm
              rcases List.mem_cons.mp hh with heq | hh2
              · rw [heq]
                exact hrec.2.2 _ _ rfl
              · exact hrec.2.1 h hh2 hnm
            · intro v0 d0 h0
              cases h0
              exact le_of_lt (lt_of_le_of_lt (hrec.2.2 _ _ rfl) hlt)
        · rw [if_neg hlt]
          have hrec := ih (some (bv, bd))
          cases hres : closestGo f t rest (some (bv, bd)) with
          | none =>
            rw [hres] at hrec
            cases hrec.1
          | some bb =>
            obtain ⟨v, d⟩ := bb
            rw [hres] at hrec
            refine ⟨?_, ?_, hrec.2.2⟩
            · rcases hrec.1 with ⟨h, hh, hprop⟩ | hbest
              · exact Or.inl ⟨h, List.mem_cons_of_mem _ hh, hprop⟩
              · exact Or.inr hbest
            · intro h hh hnm
              rcases List.mem_cons.mp hh with heq | hh2
              · rw [heq]
                exact le_trans (hrec.2.2 _ _ rfl) (le_of_not_lt hlt)
              · exact hrec.2.1 h hh2 hnm

theorem closestNonMissing_spec {hist : List HistItem} {f : BackField} {t : Int}
    {v : Val} (h : closestNonMissing hist f t = some v) :
    ∃ hh ∈ hist, isMissingV (getH hh f) = false ∧ v = getH hh f ∧
      ∀ h2 ∈ hist, isMissingV (getH h2 f) = false →
        (hh.observed_at - t).natAbs ≤ (h2.observed_at - t).natAbs := by
  have hc := closestGo_correct f t hist none
  unfold closestNonMissing at h
  cases hres : closestGo f t hist none with
  | none => rw [hres] at h; cases h
  | some b =>
    obtain ⟨v1, d⟩ := b
    rw [hres] at h hc
    have hv1 : v1 = v := by simpa using h
    subst hv1
    rcases hc.1 with ⟨hh, hmem, hnm, hval, hd⟩ | hbest
    · refine ⟨hh, hmem, hnm, hval, ?_⟩
      intro h2 hh2 hnm2
      rw [← hd]
      exact hc.2.1 h2 hh2 hnm2
    · cases hbest

theorem closestNonMissing_isSome (hist : List HistItem) (f : BackField) (t : Int)
    (h : ∃ hh ∈ hist, isMissingV (getH hh f) = false) :
    (closestNonMissing hist f t).isSome := by
  have hc := closestGo_correct f t hist none
  unfold closestNonMissing
  cases hres : closestGo f t hist none with
  | none =>
    rw [hres] at hc
    obtain ⟨hh, hmem, hnm⟩ := h
    rw [hc.2 hh hmem] at hnm
    cases hnm
  | some b => rfl

theorem setR_getR_ne {f F : BackField} (x : RecordM) (v : Val) (h : f ≠ F) :
    getR (setR x f v) F = getR x F := by
  cases f <;> cases F <;> first | exact absurd rfl h | (cases v <;> rfl)

theorem getR_backfillStep_ne (hist : List HistItem) (target : Int)
    (x : RecordM) {f F : BackField} (h : f ≠ F) :
    getR (backfillStep hist target x f) F = getR x F := by
  unfold backfillStep
  split
  · split
    · exact setR_getR_ne x _ h
    · rfl
  · rfl

theorem setR_getR_hist (x : RecordM) (F : BackField) (hh : HistItem) :
    getR (setR x F (getH hh F)) F = getH hh F := by
  cases F <;> rfl

theorem fold_getR_not_mem (hist : List HistItem) (target : Int) {F : BackField} :
    ∀ (fs : List BackField) (x : RecordM), F ∉ fs →
      getR (fs.foldl (backfillStep hist target) x) F = getR x F := by
  intro fs
  induction fs with
  | nil => intro x _; rfl
  | cons f rest ih =>
    intro x hni
    rw [List.foldl_cons]
    rw [ih _ fun hmem => hni (List.mem_cons_of_mem _ hmem)]
    exact getR_backfillStep_ne hist target x fun he => hni (he ▸ List.mem_cons_self _ _)

theorem fold_getR_filled (hist : List HistItem) (target : Int) {F : BackField}
    {v : Val} (hv : ∃ hh : HistItem, v = getH hh F) :
    ∀ (fs : List BackField) (x : RecordM), F ∈ fs → fs.Nodup →
      isMissingV (getR x F) = true →
      closestNonMissing hist F target = some v →
      getR (fs.foldl (backfillStep hist target) x) F = v := by
  intro fs
  induction fs with
  | nil => intro x hmem; cases hmem
  | cons f rest ih =>
    intro x hmem hnd hmiss hsome
    rw [List.foldl_cons]
    by_cases hf : f = F
    · subst hf
      have hstep : getR (backfillStep hist target x f) f = v := by
        unfold backfillStep
        rw [if_pos hmiss, hsome]
        obtain ⟨hh, hvv⟩ := hv
        rw [hvv]
        exact setR_getR_hist x f hh
      rw [fold_getR_not_mem hist target rest _ (List.nodup_cons.mp hnd).1]
      exact hstep
    · have hmem2 : F ∈ rest := by
        rcases List.mem_cons.mp hmem with he | hm
        · exact absurd he.symm hf
        · exact hm
      have hx : getR (backfillStep hist target x f) F = getR x F :=
        getR_backfillStep_ne hist target x hf
      exact ih _ hmem2 (List.nodup_cons.mp hnd).2 (hx ▸ hmiss) hsome

theorem backfields_mem (F : BackField) : F ∈ backFields := by
  cases F <;> simp [backFields]

theorem applyBackfill_get_eq (st : CatalogState) (r : RecordM) (F : BackField)
    (v : Val) (cid : Str)
    (hcid : safeStr r.canonical_product_id = some cid)
    (hmiss : isMissingV (getR r F) = true)
    (hne : backfillHistory st cid ≠ [])
    (hsome : closestNonMissing (backfillHistory st cid) F r.observed_at = some v)
    (hv : ∃ hh : HistItem, v = getH hh F) :
    getR (applyBackfill st r) F = v := by
  unfold applyBackfill
  rw [hcid]
  dsimp only
  rw [if_neg hne]
  exact fold_getR_filled _ _ hv backFields r (backfields_mem F) (by decide) hmiss hsome

theorem backfillHistory_eq {st1 st2 : CatalogState} (cid : Str)
    (h1 : st1.snapshots = st2.snapshots) (h2 : st1.products = st2.products) :
    backfillHistory st1 cid = backfillHistory st2 cid := by
  unfold backfillHistory
  rw [h1, h2]

theorem source_rec_getR (st : CatalogState) (r : RecordM) (snapId : Nat)
    (now : Int) (F : BackField) :
    getR (upsertProductSource st r snapId now).2 F = getR r F := by
  simp only [upsertProductSource]
  repeat' split
  all_goals cases F <;> rfl

theorem dedup_getR (hash : Str → Str) (now : Int) (st : CatalogState)
    (r : RecordM) (F : BackField) :
    getR (applyImageDedup hash now st r).2 F = getR r F := by
  cases F <;> rfl

theorem getR_setCanonical (r : RecordM) (x : Option Str) (F : BackField) :
    getR { r with canonical_product_id := x } F = getR r F := by
  cases F <;> rfl

theorem upsertOne_record_images (hash : Str → Str) (now : Int)
    (st : CatalogState) (r : RecordM) :
    (upsertOne hash now st r).2.image_urls =
      (applyImageDedup hash now (resolveCanonical st r now).2
        { r with canonical_product_id := some (resolveCanonical st r now).1 }).2.image_urls ∧
    (upsertOne hash now st r).2.duplicate_image_urls =
      (applyImageDedup hash now (resolveCanonical st r now).2
        { r with canonical_product_id := some (resolveCanonical st r now).1 }).2.duplicate_image_urls := by
  unfold upsertOne upsertRecordMid
  dsimp only
  constructor
  · rw [(source_rec_images _ _ _ _).1]
    exact (applyBackfill_core _ _).2.2.2.2.2.2.1
  · rw [(source_rec_images _ _ _ _).2]
    exact (applyBackfill_core _ _).2.2.2.2.2.2.2.1

/-- **C4.** (a) Across every sequence of `upsert_many` calls, a
`catalog_image_fingerprints` row, once present, keeps its `canonical_url`.
(b) When a record carries a URL whose fingerprint already has a row with a
different canonical URL, the stripped incoming URL lands in the record's
`duplicate_image_urls`, `image_urls` carries the stored canonical URL, and
the row's `updated_at` is bumped to the call's now. -/
theorem claim_C4_fingerprint_canonical_immutable :
    (∀ (hash : Str → Str) (calls : List (Int × List RecordM))
        (st : CatalogState) (fp c : Str),
      fpGood st.fingerprints fp c →
      fpGood ((calls.foldl (fun s call => (upsertMany hash call.1 s call.2).1)
        st)).fingerprints fp c) ∧
    (∀ (hash : Str → Str) (now : Int) (st : CatalogState) (r : RecordM)
        (raw c : Str),
      raw ∈ r.image_urls → ¬ pyStrip raw = [] →
      fpGood st.fingerprints (hash (pyStrip raw)) c → c ≠ pyStrip raw →
      pyStrip raw ∈ (upsertOne hash now st r).2.duplicate_image_urls ∧
      c ∈ (upsertOne hash now st r).2.image_urls ∧
      fpGoodNow (upsertOne hash now st r).1.fingerprints
        (hash (pyStrip raw)) c now) := by
  constructor
  · intro hash calls st fp c h
    exact callsFold_fpGood hash calls st h
  · intro hash now st r raw c hmem hne hgood hdiff
    have hgood2 : fpGood (resolveCanonical st r now).2.fingerprints
        (hash (pyStrip raw)) c := by
      rw [resolve_fingerprints]
      exact hgood
    have hh := applyImageDedup_hit hash now (resolveCanonical st r now).2
      { r with canonical_product_id := some (resolveCanonical st r now).1 }
      hmem hne hgood2 hdiff
    refine ⟨?_, ?_, ?_⟩
    · rw [(upsertOne_record_images hash now st r).2]
      exact hh.1
    · rw [(upsertOne_record_images hash now st r).1]
      exact hh.2.1
    · unfold upsertOne upsertRecordMid
      dsimp only
      rw [prodrow_fingerprints, source_fingerprints, cats_fingerprints,
        insert_fingerprints, settle_fingerprints]
      exact hh.2.2

/-- **C5.** When the incoming record's back-fill field `F` is missing and
the history of its resolved canonical id (prior snapshots, else the
current projection rows) has a non-missing `F`, `upsert_many` sets the
record's `F` to the `F` value of a history row at minimal
`|observed_at − record.observed_at|`. -/
theorem claim_C5_backfill_nearest (hash : Str → Str) (now : Int)
    (st : CatalogState) (r : RecordM) (F : BackField) (cid : Str)
    (hcid : safeStr (some (resolveCanonical st r now).1) = some cid)
    (hmiss : isMissingV (getR r F) = true)
    (hex : ∃ hh ∈ backfillHistory st cid, isMissingV (getH hh F) = false) :
    ∃ hh ∈ backfillHistory st cid, isMissingV (getH hh F) = false ∧
      getR (upsertOne hash now st r).2 F = getH hh F ∧
      ∀ h2 ∈ backfillHistory st cid, isMissingV (getH h2 F) = false →
        (hh.observed_at - r.observed_at).natAbs ≤
          (h2.observed_at - r.observed_at).natAbs := by
  have hiso := closestNonMissing_isSome (backfillHistory st cid) F r.observed_at hex
  obtain ⟨v, hsome⟩ := Option.isSome_iff_exists.mp hiso
  obtain ⟨hh, hmem, hnm, hval, hmin⟩ := closestNonMissing_spec hsome
  refine ⟨hh, hmem, hnm, ?_, hmin⟩
  rw [← hval]
  unfold upsertOne upsertRecordMid
  dsimp only
  rw [source_rec_getR]
  refine applyBackfill_get_eq _ _ F v cid ?_ ?_ ?_ ?_ ⟨hh, hval⟩
  · exact hcid
  · rw [dedup_getR, getR_setCanonical]
    exact hmiss
  · rw [backfillHistory_eq cid (by rw [dedup_snapshots, resolve_snapshots])
      (by rw [dedup_products, resolve_products])]
    exact List.ne_nil_of_mem hmem
  · rw [backfillHistory_eq cid (by rw [dedup_snapshots, resolve_snapshots])
      (by rw [dedup_products, resolve_products])]
    exact hsome

/-- A prior snapshot of canonical id `C` carrying a brand, observed at 10. -/
def c5snap : SnapRow :=
  { id := 0
    canonical_product_id := "C".toList
    parser_name := "fixprice".toList
    source_id := "S".toList
    source_run_id := none
    receiver_product_id := none
    receiver_artifact_id := none
    receiver_sort_order := none
    raw_title := "T".toList
    title_original := "T".toList
    title_normalized := "t".toList
    title_original_no_stopwords := "T".toList
    title_normalized_no_stopwords := "t".toList
    brand := some "B".toList
    unit := "PCE".toList
    available_count := none
    package_quantity := none
    package_unit := none
    category_raw := none
    category_normalized := none
    geo_raw := none
    geo_normalized := none
    composition_raw := none
    composition_normalized := none
    settlement_id := none
    image_urls := []
    duplicate_image_urls := []
    image_fingerprints := []
    observed_at := 10
    raw_payload := []
    created_at := 0 }

/-- A catalog whose identity map resolves source id `S` to canonical `C`
and which holds the one prior snapshot. -/
def c5state : CatalogState :=
  { emptyCatalog with
      snapshots := [c5snap]
      identity_map :=
        [⟨"fixprice".toList, "source_id".toList, "S".toList, "C".toList, 0⟩] }

/-- An incoming record for `S` with a missing brand. -/
def c5rec : RecordM := { baseRec with source_id := some "S".toList, observed_at := 7 }

/-- Witness for C5: the missing brand is filled from the only snapshot. -/
theorem claim_C5_backfill_nearest_witness :
    ∃ hh ∈ backfillHistory c5state "C".toList,
      isMissingV (getH hh BackField.brand) = false ∧
      getR (upsertOne id 5 c5state c5rec).2 BackField.brand = getH hh BackField.brand ∧
      ∀ h2 ∈ backfillHistory c5state "C".toList,
        isMissingV (getH h2 BackField.brand) = false →
        (hh.observed_at - c5rec.observed_at).natAbs ≤
          (h2.observed_at - c5rec.observed_at).natAbs :=
  claim_C5_backfill_nearest id 5 c5state c5rec BackField.brand "C".toList
    (by decide) (by decide) ⟨snapHist c5snap, by decide, by decide⟩

/-- A state with one fingerprint row whose canonical URL is `C.png`. -/
def c4state : CatalogState :=
  { emptyCatalog with fingerprints := [⟨"X".toList, "C.png".toList, 0, 0⟩] }

/-- A record carrying one image URL. -/
def c4rec : RecordM := { baseRec with image_urls := ["u1.png".toList] }

/-- A hash collapsing every URL onto the stored fingerprint. -/
def c4hash : Str → Str := fun _ => "X".toList

/-- Witness for C4: the later URL `u1.png` sharing the fingerprint of the
stored `C.png` is reported as a duplicate, the canonical URL survives and
the row is bumped. -/
theorem claim_C4_fingerprint_canonical_immutable_witness :
    fpGood ((([(5, [c4rec])] : List (Int × List RecordM)).foldl
        (fun s call => (upsertMany c4hash call.1 s call.2).1)
        c4state)).fingerprints "X".toList "C.png".toList ∧
    pyStrip "u1.png".toList ∈ (upsertOne c4hash 5 c4state c4rec).2.duplicate_image_urls ∧
    "C.png".toList ∈ (upsertOne c4hash 5 c4state c4rec).2.image_urls ∧
    fpGoodNow (upsertOne c4hash 5 c4state c4rec).1.fingerprints
      (c4hash (pyStrip "u1.png".toList)) "C.png".toList 5 := by
  have hgood : fpGood c4state.fingerprints "X".toList "C.png".toList :=
    ⟨⟨"X".toList, "C.png".toList, 0, 0⟩, rfl, rfl⟩
  have hgood2 : fpGood c4state.fingerprints (c4hash (pyStrip "u1.png".toList))
      "C.png".toList := hgood
  have hb := claim_C4_fingerprint_canonical_immutable.2 c4hash 5 c4state c4rec
    "u1.png".toList "C.png".toList (by decide) (by decide) hgood2 (by decide)
  exact ⟨claim_C4_fingerprint_canonical_immutable.1 c4hash [(5, [c4rec])]
    c4state "X".toList "C.png".toList hgood, hb⟩

/-- A record with a concrete source id, for the C6 witness. -/
def c6rec : RecordM := { baseRec with source_id := some "S1".toList }

/-- Witness for C6: two single-record calls for the same key add exactly
two snapshot rows to the empty catalog. -/
theorem claim_C6_snapshots_append_only_witness :
    (∃ t, (upsertMany id 5 emptyCatalog [c6rec, c6rec]).1.snapshots =
      emptyCatalog.snapshots ++ t) ∧
    snapCount (([c6rec, c6rec] : List RecordM).foldl
        (fun s r => (upsertMany id 5 s [r]).1) emptyCatalog)
      "fixprice".toList "S1".toList =
      snapCount emptyCatalog "fixprice".toList "S1".toList + 2 :=
  ⟨claim_C6_snapshots_append_only.1 id 5 emptyCatalog [c6rec, c6rec],
   claim_C6_snapshots_append_only.2 id 5 emptyCatalog [c6rec, c6rec]
     "fixprice".toList "S1".toList (by decide)⟩

def c3hash : Str → Str := fun _ => "h".toList

/-- A populated record: source id `S`, unit `KGM`, a brand and a raw
composition. -/
def c3rec0 : RecordM :=
  { baseRec with
      source_id := some "S".toList
      unit := "KGM".toList
      brand := some "B".toList
      composition_raw := some "sugar".toList }

/-- A record for the same source whose non-title mergeable fields are all
missing (its unit defaults to `PCE`). -/
def c3rec1 : RecordM := { baseRec with source_id := some "S".toList, observed_at := 1 }

/-- The catalog after upserting the populated record. -/
def c3state : CatalogState := (upsertMany c3hash 5 emptyCatalog [c3rec0]).1

/-- The `catalog_products` row `c3state` holds for `(fixprice, S)`. -/
def c3row : ProdRow :=
  { canonical_product_id := "u0".toList
    parser_name := "fixprice".toList
    source_id := "S".toList
    plu := none
    sku := none
    raw_title := "T".toList
    title_original := "T".toList
    title_normalized := "t".toList
    title_original_no_stopwords := "T".toList
    title_normalized_no_stopwords := "t".toList
    brand := some "B".toList
    unit := "KGM".toList
    available_count := none
    package_quantity := none
    package_unit := none
    primary_category_id := none
    settlement_id := none
    composition_raw := some "sugar".toList
    composition_normalized := none
    image_urls := []
    duplicate_image_urls := []
    image_fingerprints := []
    observed_at := 0
    raw_payload := []
    created_at := 5
    updated_at := 5 }

/-- **C3 counterexample.** A fully populated row (unit `KGM`, brand,
composition) followed by a record whose non-title mergeable fields are all
missing: `upsert_many` still overwrites the row's `unit` with the incoming
record's unit (`existing.unit = record.unit` is unconditional), so a
non-title field loses its previous non-empty value. -/
theorem claim_C3_counterexample :
    isMissingS c3rec1.plu = true ∧ isMissingS c3rec1.sku = true ∧
    isMissingS c3rec1.brand = true ∧ c3rec1.available_count = none ∧
    c3rec1.package_quantity = none ∧ isMissingS c3rec1.package_unit = true ∧
    isMissingS c3rec1.composition_raw = true ∧
    isMissingS c3rec1.composition_normalized = true ∧
    isMissingS c3rec1.category_raw = true ∧ isMissingS c3rec1.geo_raw = true ∧
    isMissingS c3rec1.canonical_product_id = true ∧
    c3rec1.image_urls = [] ∧ c3rec1.raw_payload = [] ∧
    (prodLookup c3state.products c3rec1.parser_name
        (sourceIdOf c3rec1)).map (fun q => q.unit) = some "KGM".toList ∧
    (prodLookup (upsertMany c3hash 6 c3state [c3rec1]).1.products
        c3rec1.parser_name (sourceIdOf c3rec1)).map (fun q => q.unit) =
      some "PCE".toList ∧
    ("PCE".toList : Str) ≠ "KGM".toList := by
  decide

/-- **C3 (amended).** When a `catalog_products` row exists for the record's
`(parser_name, source_id)` key (and the record carries no images, geo or
category input), one `upsert_many` call replaces the row so that: `plu`,
`sku`, `available_count` and `composition_raw` keep their previous values
whenever the incoming value is missing; `brand`, `package_quantity`,
`package_unit` and `composition_normalized` keep their previous values
whenever the record's value is still missing after back-fill, and take the
back-filled value otherwise (shown for `brand`); the image columns,
`primary_category_id`, `settlement_id` and a non-blank canonical id are
kept; the five title fields and `unit` are overwritten unconditionally;
`observed_at` becomes the max and `raw_payload` the overlay. -/
theorem claim_C3_nondestructive_merge (hash : Str → Str) (now : Int)
    (st : CatalogState) (r : RecordM) (sid : Str) (row : ProdRow)
    (hsid : safeStr r.source_id = some sid)
    (hrow : prodLookup st.products r.parser_name sid = some row)
    (himg : r.image_urls = [])
    (hgeo : extractGeoComponents r = none)
    (hcat : safeStr r.category_raw = none) :
    ∃ rowp,
      prodLookup (upsertMany hash now st [r]).1.products r.parser_name sid =
        some rowp ∧
      (isMissingS r.plu = true → rowp.plu = row.plu) ∧
      (isMissingS r.sku = true → rowp.sku = row.sku) ∧
      (r.available_count = none → rowp.available_count = row.available_count) ∧
      (isMissingS r.composition_raw = true →
        rowp.composition_raw = row.composition_raw) ∧
      (isMissingS (upsertRecordMid hash now st r).2.brand = true →
        rowp.brand = row.brand) ∧
      (isMissingS (upsertRecordMid hash now st r).2.brand = false →
        rowp.brand = (upsertRecordMid hash now st r).2.brand) ∧
      ((upsertRecordMid hash now st r).2.package_quantity = none →
        rowp.package_quantity = row.package_quantity) ∧
      (isMissingS (upsertRecordMid hash now st r).2.package_unit = true →
        rowp.package_unit = row.package_unit) ∧
      (isMissingS (upsertRecordMid hash now st r).2.composition_normalized = true →
        rowp.composition_normalized = row.composition_normalized) ∧
      rowp.image_urls = row.image_urls ∧
      rowp.duplicate_image_urls = row.duplicate_image_urls ∧
      rowp.image_fingerprints = row.image_fingerprints ∧
      rowp.primary_category_id = row.primary_category_id ∧
      rowp.settlement_id = row.settlement_id ∧
      (isMissingS (some row.canonical_product_id) = false →
        rowp.canonical_product_id = row.canonical_product_id) ∧
      rowp.raw_title = r.raw_title ∧
      rowp.title_original = r.title_original ∧
      rowp.title_normalized = r.title_normalized ∧
      rowp.title_original_no_stopwords = r.title_original_no_stopwords ∧
      rowp.title_normalized_no_stopwords = r.title_normalized_no_stopwords ∧
      rowp.unit = r.unit ∧
      rowp.observed_at = max row.observed_at r.observed_at ∧
      rowp.raw_payload = mergePayload row.raw_payload r.raw_payload := by
  obtain ⟨o1, o2, o3, o4, o5, o6, o7, o8, o9, o10, o11, o12, o13, o14, o15,
    o16, o17, o18, o19⟩ := upsertOne_record_fields hash now st r
  have hBimg : (upsertOne hash now st r).2.image_urls = [] :=
    o19.trans (midImages_empty hash now st r himg)
  have hcats : catsOf hash now st r = [] := catsOf_none hash now st r hcat
  have hsett : settOf hash now st r = none := settOf_none hash now st r hgeo
  refine ⟨mergeProdRow row (upsertOne hash now st r).2
      (primaryCategoryId (catsOf hash now st r)) (settOf hash now st r) now,
    ?_, ?_, ?_, ?_, ?_, ?_, ?_, ?_, ?_, ?_, ?_, ?_, ?_, ?_, ?_, ?_, ?_, ?_,
    ?_, ?_, ?_, ?_, ?_, ?_⟩
  · rw [upsertMany_single]
    exact upsertOne_products_spec hash now st r sid row hsid hrow
  · intro h; simp [mergeProdRow, o3, h]
  · intro h; simp [mergeProdRow, o4, h]
  · intro h; simp [mergeProdRow, o6, h]
  · intro h; simp [mergeProdRow, o7, h]
  · intro h; simp [mergeProdRow, o15, h]
  · intro h; simp [mergeProdRow, o15, h]
  · intro h; simp [mergeProdRow, o16, h]
  · intro h; simp [mergeProdRow, o17, h]
  · intro h; simp [mergeProdRow, o18, h]
  · simp [mergeProdRow, hBimg]
  · simp [mergeProdRow, hBimg]
  · simp [mergeProdRow, hBimg]
  · simp [mergeProdRow, hcats, primaryCategoryId]
  · simp [mergeProdRow, hsett]
  · intro h; simp [mergeProdRow, h]
  · simp [mergeProdRow, o8]
  · simp [mergeProdRow, o9]
  · simp [mergeProdRow, o10]
  · simp [mergeProdRow, o11]
  · simp [mergeProdRow, o12]
  · simp [mergeProdRow, o5]
  · simp [mergeProdRow, o13]
  · simp [mergeProdRow, o14]

/-- Witness for C3: the fully populated row of `c3state` keeps its
composition through an all-missing upsert while its unit is overwritten. -/
theorem claim_C3_nondestructive_merge_witness :
    (safeStr c3rec1.source_id = some "S".toList ∧
     prodLookup c3state.products c3rec1.parser_name "S".toList = some c3row ∧
     c3rec1.image_urls = [] ∧
     extractGeoComponents c3rec1 = none ∧
     safeStr c3rec1.category_raw = none) ∧
    ∃ rowp,
      prodLookup (upsertMany c3hash 6 c3state [c3rec1]).1.products
          c3rec1.parser_name "S".toList = some rowp ∧
      rowp.composition_raw = c3row.composition_raw ∧
      rowp.unit = c3rec1.unit := by
  refine ⟨⟨by decide, by decide, by decide, by decide, by decide⟩, ?_⟩
  obtain ⟨rowp, hl, _, _, _, h4, _, _, _, _, _, _, _, _, _, _, _, _, _, _, _,
    _, h21, _, _⟩ :=
    claim_C3_nondestructive_merge c3hash 6 c3state c3rec1 "S".toList c3row
      (by decide) (by decide) (by decide) (by decide) (by decide)
  exact ⟨rowp, hl, h4 (by decide), h21⟩

def c1hash : Str → Str := fun _ => "h".toList

/-- A record that seeds the source row `(fixprice, S)` (no plu). -/
def c1a : RecordM := { baseRec with source_id := some "S".toList }

/-- First record with plu `P`; fresh source id; distinct titles so its
fallback probe cannot hit `c1a`'s `normalized_name` binding. -/
def c1b : RecordM :=
  { baseRec with
      plu := some "P".toList
      source_id := some "S1".toList
      title_normalized := "r1".toList
      title_normalized_no_stopwords := "r1".toList }

/-- Second record with the same plu `P`, but `c1a`'s source id `S`. -/
def c1c : RecordM := { baseRec with plu := some "P".toList, source_id := some "S".toList }

/-- The catalog after the first committed `upsert_many` call (`[c1a]`). -/
def c1st1 : CatalogState := (upsertMany c1hash 5 emptyCatalog [c1a]).1

/-- The catalog after the second committed `upsert_many` call (`[c1b]`). -/
def c1st2 : CatalogState := (upsertMany c1hash 6 c1st1 [c1b]).1

/-- **C1 counterexample.** `c1b` and `c1c` share `(parser_name, plu)` with a
non-empty plu and arrive in three separately committed `upsert_many` calls
(`[c1a]`, then `[c1b]`, then `[c1c]`), yet they end up with different
canonical ids: `c1c` resolves to `c1b`'s id `u1` through the committed plu
binding, but `_upsert_product_source` then adopts the canonical id `u0` of
the committed source row `(fixprice, S)` that the `c1a` call created.
Every cross-record lookup here reads rows committed by an earlier call
(with `autoflush=False`, `session.get` sees only committed source rows, so
this adoption occurs across calls, not inside one batch). -/
theorem claim_C1_counterexample :
    c1b.parser_name = c1c.parser_name ∧
    c1b.plu = some "P".toList ∧ c1c.plu = some "P".toList ∧
    pyStrip "P".toList ≠ [] ∧
    (upsertMany c1hash 5 emptyCatalog [c1a]).2.map
      (fun q => q.canonical_product_id) = [some "u0".toList] ∧
    (upsertMany c1hash 6 c1st1 [c1b]).2.map
      (fun q => q.canonical_product_id) = [some "u1".toList] ∧
    (upsertMany c1hash 7 c1st2 [c1c]).2.map
      (fun q => q.canonical_product_id) = [some "u0".toList] ∧
    (some "u1".toList : Option Str) ≠ some "u0".toList := by
  decide

/-- **C1 (amended).** For records `r1`, `r2` with equal normalized parser
and equal non-blank stripped plu `P`, arriving in separately committed
calls with arbitrary separately committed records in between (each
`upsertOne` step stands for one committed single-record `upsert_many`
call, so every lookup reads committed state): the identity map binds
`(parser, plu, P)` to `r1`'s resolved canonical id, every later upsert
refreshes but never rebinds it, and `r2` resolves to that same id — so
both records are assigned `r1`'s resolved canonical id, PROVIDED no
existing `catalog_product_sources` row for either record's
`(parser_name, source_id)` key carries a different non-blank canonical
id (`_upsert_product_source` would adopt it, as the counterexample
shows). -/
theorem claim_C1_plu_identity_stability (hash : Str → Str) (now : Int)
    (st : CatalogState) (r1 r2 : RecordM) (mids : List RecordM) (p P : Str)
    (hpar1 : lowerStr (pyStrip r1.parser_name) = p)
    (hplu1 : safeStr r1.plu = some P)
    (hpar2 : lowerStr (pyStrip r2.parser_name) = p)
    (hplu2 : safeStr r2.plu = some P)
    (hv : (safeStr (some (resolveCanonical st r1 now).1)).isSome = true)
    (had1 : ∀ srow, srcLookup st.sources (lowerStr (pyStrip r1.parser_name))
        (sourceIdOf (upsertRecordMid hash now st r1).2) = some srow →
      (safeStr (some srow.canonical_product_id)).isSome = true →
      srow.canonical_product_id = (resolveCanonical st r1 now).1)
    (had2 : ∀ srow, srcLookup
        (upsertMany hash now (upsertOne hash now st r1).1 mids).1.sources
        (lowerStr (pyStrip r2.parser_name))
        (sourceIdOf (upsertRecordMid hash now
          (upsertMany hash now (upsertOne hash now st r1).1 mids).1 r2).2) =
        some srow →
      (safeStr (some srow.canonical_product_id)).isSome = true →
      srow.canonical_product_id = (resolveCanonical st r1 now).1) :
    (upsertOne hash now st r1).2.canonical_product_id =
      some (resolveCanonical st r1 now).1 ∧
    (upsertOne hash now (upsertMany hash now (upsertOne hash now st r1).1
        mids).1 r2).2.canonical_product_id =
      some (resolveCanonical st r1 now).1 := by
  constructor
  · exact upsertOne_record_canonical hash now st r1 had1
  · have hb1 := upsertOne_binding_after hash now st r1 p P hpar1 hplu1
    have hb2 := upsertMany_binding_stable hash now p P
      (resolveCanonical st r1 now).1 hv mids (upsertOne hash now st r1).1 hb1
    obtain ⟨row0, hrow0, hc⟩ := hb2
    have hres2 : (resolveCanonical
        (upsertMany hash now (upsertOne hash now st r1).1 mids).1 r2 now).1 =
        (resolveCanonical st r1 now).1 := by
      rw [resolve_chosen_plu _ r2 now p P row0 hpar2 hplu2 hrow0
        (by rw [hc]; exact hv)]
      exact hc
    have hfinal := upsertOne_record_canonical hash now
      (upsertMany hash now (upsertOne hash now st r1).1 mids).1 r2
      (fun srow hs hnb => (had2 srow hs hnb).trans hres2.symm)
    rw [hfinal, hres2]

/-- First witness record: plu `P`, no source id. -/
def c1w1 : RecordM := { baseRec with plu := some "P".toList }

/-- An unrelated record upserted in between in its own committed call
(different plu, titles). -/
def c1wmid : RecordM :=
  { baseRec with
      plu := some "Q".toList
      title_normalized := "m".toList
      title_normalized_no_stopwords := "m".toList }

/-- Second witness record: the same plu `P`. -/
def c1w2 : RecordM := { baseRec with plu := some "P".toList }

/-- The source row the `c1w1` call commits for key `(fixprice, plu:P)`;
the `c1w2` call later reads it as a committed row. -/
def c1srow : SourceRow :=
  { parser_name := "fixprice".toList
    source_id := "plu:P".toList
    canonical_product_id := "u0".toList
    latest_snapshot_id := some 0
    first_seen_at := 0
    last_seen_at := 0
    updated_at := 5 }

/-- Witness for C1: three separately committed single-record calls —
`c1w1`, an unrelated record, then `c1w2` — leave `c1w1` and `c1w2` with
the same canonical id. -/
theorem claim_C1_plu_identity_stability_witness :
    (lowerStr (pyStrip c1w1.parser_name) = "fixprice".toList ∧
     safeStr c1w1.plu = some "P".toList ∧
     safeStr c1w2.plu = some "P".toList ∧
     (safeStr (some (resolveCanonical emptyCatalog c1w1 5).1)).isSome = true) ∧
    (upsertOne c1hash 5 emptyCatalog c1w1).2.canonical_product_id =
      some (resolveCanonical emptyCatalog c1w1 5).1 ∧
    (upsertOne c1hash 5 (upsertMany c1hash 5
        (upsertOne c1hash 5 emptyCatalog c1w1).1 [c1wmid]).1
        c1w2).2.canonical_product_id =
      some (resolveCanonical emptyCatalog c1w1 5).1 := by
  refine ⟨⟨by decide, by decide, by decide, by decide⟩, ?_⟩
  refine claim_C1_plu_identity_stability c1hash 5 emptyCatalog c1w1 c1w2
    [c1wmid] "fixprice".toList "P".toList (by decide) (by decide) (by decide)
    (by decide) (by decide) ?_ ?_
  · intro srow hs _
    exact Option.noConfusion hs
  · intro srow hs _
    rw [show srcLookup (upsertMany c1hash 5
        (upsertOne c1hash 5 emptyCatalog c1w1).1 [c1wmid]).1.sources
        (lowerStr (pyStrip c1w2.parser_name))
        (sourceIdOf (upsertRecordMid c1hash 5 (upsertMany c1hash 5
          (upsertOne c1hash 5 emptyCatalog c1w1).1 [c1wmid]).1 c1w2).2) =
        some c1srow from by decide] at hs
    injection hs with h3
    subst h3
    decide

end Conv
